import Mathlib

/-!
Verification of the duplicate-package analysis engine of
`vite-plugin-duplicate-packages` (src/unnamed/part_004, main variant, and
src/src/DuplicatePackagesPlugin.ts).

The embedding models:
* filesystem paths as lists of path components (an absolute path
  `/a/node_modules/pkg/index.js` is `["", "a", "node_modules", "pkg", "index.js"]`);
  this represents the separator-normalized form of paths — the source's
  `normalize` / backslash-to-slash rewrites are identities in this
  representation;
* the filesystem as a function from a directory (component list) to the
  outcome of locating and parsing a `package.json` in that directory;
* JavaScript values that may be `undefined` (the `name` and `version` fields
  of a parsed manifest) as `Option String`; a JS template literal renders
  `undefined` as the string `"undefined"`, while `Array.prototype.join`
  renders it as the empty string — both renderings are modelled explicitly;
* JS `Map` (insertion-ordered, set-on-existing-key keeps the position) as an
  association list, and JS `Set` as a duplicate-free list in insertion order.
-/

/-- A parsed `package.json`: the `name` and `version` fields, each possibly
absent (JS `undefined`). -/
structure Manifest where
  name : Option String
  version : Option String
deriving DecidableEq, Repr

/-- Outcome of looking for `package.json` in one directory:
`absent` — no such file (`findRoot`'s existence check fails);
`unparseable` — the file exists but `readFileSync`/`JSON.parse` throws;
`nullManifest` — it parses to a falsy value (`if (!packageJson)`);
`parsed m` — it parses to the manifest `m`. -/
inductive ManifestReadResult where
  | absent
  | unparseable
  | nullManifest
  | parsed (m : Manifest)
deriving DecidableEq, Repr

/-- The filesystem, abstracted to what the plugin reads from it. -/
abbrev FileSystem := List String → ManifestReadResult

/-- `find-root`'s per-directory check: `fs.existsSync(join(dir, 'package.json'))`. -/
def manifestExistsB (fs : FileSystem) (dir : List String) : Bool :=
  decide (fs dir ≠ ManifestReadResult.absent)

/-- `PackageInfo` from the source: the identity of one located package
manifest. `name`/`version` are copied verbatim from the parsed manifest, so
either may be `undefined`. -/
structure PackageInfo where
  name : Option String
  version : Option String
  rootPath : List String
deriving DecidableEq, Repr

/-- The `findRoot` collaborator (the `find-root` npm package), on the
reversed component list: `find-root` splits the path into segments and pops
from the end, checking each resulting ancestor directory for a
`package.json`; walking the reversed list head-first is exactly that loop.
`none` models the `Error` it throws when the climb exhausts the path (caught
by the caller). -/
def findRootAux (fs : FileSystem) : List String → Option (List String)
  | [] => none
  | c :: rest =>
      if manifestExistsB fs ((c :: rest).reverse) then some ((c :: rest).reverse)
      else findRootAux fs rest

/-- `findRoot(path)`: the nearest ancestor directory of `path` (including
`path` itself) that contains a `package.json` file. -/
def findRoot (fs : FileSystem) (comps : List String) : Option (List String) :=
  findRootAux fs comps.reverse

/-- `findRoot` satisfies the forward-form ancestor-climb recurrence of the
source: check the directory itself, else climb to its parent. -/
theorem findRoot_eq (fs : FileSystem) (comps : List String) :
    findRoot fs comps =
      if comps = [] then none
      else if manifestExistsB fs comps then some comps
      else findRoot fs comps.dropLast := by
  rcases List.eq_nil_or_concat comps with rfl | ⟨l, a, hc⟩
  · simp [findRoot, findRootAux]
  · rw [List.concat_eq_append] at hc
    subst hc
    have h1 : (l ++ [a]).reverse = a :: l.reverse := by simp
    have h2 : (a :: l.reverse).reverse = l ++ [a] := by simp
    have h3 : (l ++ [a]).dropLast = l := by simp
    have h4 : l ++ [a] ≠ [] := by simp
    rw [findRoot, h1, findRootAux, h2, if_neg h4, h3]
    rfl

theorem findRootAux_sound (fs : FileSystem) :
    ∀ (rl root : List String), findRootAux fs rl = some root →
      root ≠ [] ∧ root.reverse <:+ rl ∧ manifestExistsB fs root = true := by
  intro rl
  induction rl with
  | nil => intro root h; simp [findRootAux] at h
  | cons c rest ih =>
      intro root h
      rw [findRootAux] at h
      by_cases hex : manifestExistsB fs ((c :: rest).reverse) = true
      · rw [if_pos hex] at h
        cases h
        refine ⟨by simp, ?_, hex⟩
        simp
      · rw [if_neg hex] at h
        obtain ⟨h1, h2, h3⟩ := ih root h
        exact ⟨h1, h2.trans (List.suffix_cons c rest), h3⟩

theorem findRoot_sound (fs : FileSystem) (comps : List String) :
    ∀ root, findRoot fs comps = some root →
      root ≠ [] ∧ root.length ≤ comps.length ∧ root <+: comps ∧
        manifestExistsB fs root = true := by
  intro root h
  obtain ⟨h1, h2, h3⟩ := findRootAux_sound fs comps.reverse root h
  have hp : root <+: comps := List.reverse_suffix.mp h2
  exact ⟨h1, hp.length_le, hp, h3⟩

/-- `getPackageJsonForPath` from the source, on the reversed component list:
climb the ancestors of the path; at the nearest directory holding a
`package.json`, a parse failure or falsy parse yields `undefined`, a manifest
with both `name` and `version` absent is a placeholder and the climb
restarts one directory above, and otherwise the manifest's fields and the
directory are returned as the `PackageInfo`. -/
def getPackageJsonAux (fs : FileSystem) : List String → Option PackageInfo
  | [] => none
  | c :: rest =>
      if manifestExistsB fs ((c :: rest).reverse) then
        match fs ((c :: rest).reverse) with
        | ManifestReadResult.parsed m =>
            if m.name = none ∧ m.version = none then getPackageJsonAux fs rest
            else some ⟨m.name, m.version, (c :: rest).reverse⟩
        | _ => none
      else getPackageJsonAux fs rest

/-- `getPackageJsonForPath(path)`: locate the nearest owning `package.json`
for `path` and extract `{name, version, rootPath}`. -/
def getPackageJsonForPath (fs : FileSystem) (path : List String) :
    Option PackageInfo :=
  getPackageJsonAux fs path.reverse

theorem getPackageJsonAux_eq (fs : FileSystem) (rl : List String) :
    getPackageJsonAux fs rl =
      match findRootAux fs rl with
      | none => none
      | some root =>
        match fs root with
        | ManifestReadResult.parsed m =>
            if m.name = none ∧ m.version = none then
              getPackageJsonAux fs root.reverse.tail
            else some ⟨m.name, m.version, root⟩
        | _ => none := by
  induction rl with
  | nil => simp [getPackageJsonAux, findRootAux]
  | cons c rest ih =>
      by_cases hex : manifestExistsB fs ((c :: rest).reverse) = true
      · rw [getPackageJsonAux, if_pos hex, findRootAux, if_pos hex]
        simp only [List.reverse_reverse, List.tail_cons]
      · rw [getPackageJsonAux, if_neg hex, findRootAux, if_neg hex, ih]

/-- `getPackageJsonForPath` satisfies the recurrence that is the literal body
of the source function: look up `findRoot(path)`; on a missing, unparseable
or falsy manifest return `undefined`; on a manifest with both `name` and
`version` absent retry from `resolve(root, '..')` (one directory above the
root, `root.dropLast`); otherwise return its fields with the root as
`rootPath`. -/
theorem getPackageJsonForPath_eq (fs : FileSystem) (path : List String) :
    getPackageJsonForPath fs path =
      match findRoot fs path with
      | none => none
      | some root =>
        match fs root with
        | ManifestReadResult.parsed m =>
            if m.name = none ∧ m.version = none then
              getPackageJsonForPath fs root.dropLast
            else some ⟨m.name, m.version, root⟩
        | _ => none := by
  rw [getPackageJsonForPath, getPackageJsonAux_eq]
  rw [show findRootAux fs path.reverse = findRoot fs path from rfl]
  cases hfr : findRoot fs path with
  | none => rfl
  | some root =>
      cases hm : fs root with
      | parsed m =>
          simp only [hm]
          by_cases hph : m.name = none ∧ m.version = none
          · rw [if_pos hph, if_pos hph]
            have hdt : root.dropLast.reverse = root.reverse.tail := by
              rcases List.eq_nil_or_concat root with rfl | ⟨l, a, hc⟩
              · simp
              · rw [List.concat_eq_append] at hc
                subst hc
                simp
            rw [getPackageJsonForPath, hdt]
          · rw [if_neg hph, if_neg hph]
      | absent => simp only [hm]
      | unparseable => simp only [hm]
      | nullManifest => simp only [hm]

theorem getPackageJsonAux_sound (fs : FileSystem) :
    ∀ rl info, getPackageJsonAux fs rl = some info →
      info.rootPath ≠ [] ∧ info.rootPath.reverse <:+ rl ∧
        ∃ m, fs info.rootPath = ManifestReadResult.parsed m ∧
          info.name = m.name ∧ info.version = m.version ∧
          ¬(m.name = none ∧ m.version = none) := by
  intro rl
  induction rl with
  | nil => intro info h; simp [getPackageJsonAux] at h
  | cons c rest ih =>
      intro info h
      rw [getPackageJsonAux] at h
      by_cases hex : manifestExistsB fs ((c :: rest).reverse) = true
      · rw [if_pos hex] at h
        split at h
        · rename_i m hm
          by_cases hph : m.name = none ∧ m.version = none
          · rw [if_pos hph] at h
            obtain ⟨h1, h2, h3⟩ := ih info h
            exact ⟨h1, h2.trans (List.suffix_cons c rest), h3⟩
          · rw [if_neg hph] at h
            cases h
            exact ⟨by simp, by simp, m, hm, rfl, rfl, hph⟩
        · exact absurd h (by simp)
      · rw [if_neg hex] at h
        obtain ⟨h1, h2, h3⟩ := ih info h
        exact ⟨h1, h2.trans (List.suffix_cons c rest), h3⟩

/-- Soundness of the manifest resolver: a returned identity always points at
a real, parsed manifest that defines at least one of `name`/`version`, its
fields are copied from that manifest, and its `rootPath` is an ancestor
directory (a component prefix) of the queried path. -/
theorem getPackageJsonForPath_sound (fs : FileSystem) (path : List String) :
    ∀ info, getPackageJsonForPath fs path = some info →
      info.rootPath ≠ [] ∧ info.rootPath <+: path ∧
        ∃ m, fs info.rootPath = ManifestReadResult.parsed m ∧
          info.name = m.name ∧ info.version = m.version ∧
          ¬(m.name = none ∧ m.version = none) := by
  intro info h
  obtain ⟨h1, h2, h3⟩ := getPackageJsonAux_sound fs path.reverse info h
  exact ⟨h1, List.reverse_suffix.mp h2, h3⟩

/-- Rendering of a possibly-`undefined` JS string inside a template literal:
`` `${x}` `` prints `undefined` as the literal text `"undefined"`. -/
def templateShow : Option String → String
  | some s => s
  | none => "undefined"

/-- Rendering of a possibly-`undefined` JS string by `Array.prototype.join`,
which prints `undefined` as the empty string. -/
def joinShow : Option String → String
  | some s => s
  | none => ""

/-- The doppelganger registry key: the template literal
`` `${packageInfo.name}@${packageInfo.version}` ``. -/
def packageKey (name version : Option String) : String :=
  templateShow name ++ "@" ++ templateShow version

/-- `DuplicatePackagesConfig` from the source.  `exceptions` is a JS object
mapping a package name to its `maxAllowedVersionCount`; object keys are unique
and iterate in insertion order, which the association-list model preserves. -/
structure DuplicatePackagesConfig where
  exceptions : List (String × Nat)
  deduplicateDoppelgangers : Bool
  enableInDev : Bool
deriving DecidableEq, Repr

/-- JS object property lookup `config?.exceptions?.[k]`. -/
def lookupException (cfg : DuplicatePackagesConfig) (k : String) : Option Nat :=
  (cfg.exceptions.find? (fun e => e.1 = k)).map (fun e => e.2)

/-- `Object.keys(config?.exceptions ?? {})`. -/
def exceptionKeys (cfg : DuplicatePackagesConfig) : List String :=
  cfg.exceptions.map (fun e => e.1)

/-- `DoppelgangerInfo` from the source: the canonical root chosen for one
`name@version` identity and the set of all roots observed for it. -/
structure DoppelgangerInfo where
  resolveToPath : List String
  paths : List (List String)
deriving DecidableEq, Repr

/-- `Map.prototype.get` on the association-list model of a JS `Map`. -/
def jsMapGet {α β : Type} [DecidableEq α] (m : List (α × β)) (k : α) :
    Option β :=
  match m with
  | [] => none
  | (k', v) :: rest => if k' = k then some v else jsMapGet rest k

/-- `Map.prototype.set`: updating an existing key keeps its position, a new
key is appended at the end. -/
def jsMapSet {α β : Type} [DecidableEq α] (m : List (α × β)) (k : α) (v : β) :
    List (α × β) :=
  match m with
  | [] => [(k, v)]
  | (k', v') :: rest =>
      if k' = k then (k, v) :: rest else (k', v') :: jsMapSet rest k v

/-- `Set.prototype.add` on the insertion-ordered duplicate-free list model of
a JS `Set`. -/
def jsSetAdd {α : Type} [DecidableEq α] (s : List α) (a : α) : List α :=
  if a ∈ s then s else s ++ [a]

/-- Mutable state captured by the plugin closure: `doppelgangerMap` and the
dev-mode `resolvedModuleIds` set. -/
structure PluginState where
  doppelgangerMap : List (String × DoppelgangerInfo)
  resolvedModuleIds : List (List String)
deriving DecidableEq, Repr

/-- The state of a freshly constructed plugin instance. -/
def emptyPluginState : PluginState := ⟨[], []⟩

/-- One invocation of the `resolveId` hook: the specifier, the importer
(`undefined` for entry points), and the result `this.resolve` would give for
it (`none` models both a failed host resolution and the parts of the host we
do not model). -/
structure ResolveCallInput where
  source : String
  importer : Option String
  hostResolved : Option (List String)
deriving DecidableEq, Repr

/-- JS truthiness of the `importer` argument: `!importer` is true for
`undefined` and for the empty string. -/
def importerFalsy : Option String → Bool
  | none => true
  | some s => s.isEmpty

/-- The virtual-module guard `source.startsWith('\0')`: for the one-character
pattern this is exactly "the first character is NUL". -/
def sourceIsVirtual (s : String) : Bool :=
  match s.data with
  | [] => false
  | c :: _ => decide (c = Char.ofNat 0)

/-- `resolved.id.includes('node_modules')`, at the path-component level. -/
def pathIncludesNodeModules (p : List String) : Bool :=
  decide ("node_modules" ∈ p)

/-- `String.prototype.replace` with a string pattern, at the path-component
level: replace the first occurrence of the contiguous component run `needle`
by `repl`; if `needle` does not occur, the list is unchanged. -/
def replaceFirst (needle repl : List String) : List String → List String
  | [] => []
  | x :: xs =>
      if needle.isPrefixOf (x :: xs) then repl ++ (x :: xs).drop needle.length
      else x :: replaceFirst needle repl xs

/-- The `resolveId` hook of the main plugin variant (part_004 lines 407-453):
guard on importer/virtual-module, consult the host resolution, record the
module, locate its owning package, and — when `deduplicateDoppelgangers` is
enabled — canonicalize doppelgangers through `doppelgangerMap`.  Returns the
updated closure state and the hook's return value (`none` models the JS
`return null`, pass-through). -/
def resolveId (fs : FileSystem) (cfg : DuplicatePackagesConfig)
    (st : PluginState) (inp : ResolveCallInput) :
    PluginState × Option (List String) :=
  if importerFalsy inp.importer || sourceIsVirtual inp.source then (st, none)
  else
    match inp.hostResolved with
    | none => (st, none)
    | some resolved =>
      if !pathIncludesNodeModules resolved then (st, none)
      else
        let st1 : PluginState :=
          ⟨st.doppelgangerMap, jsSetAdd st.resolvedModuleIds resolved⟩
        match getPackageJsonForPath fs resolved with
        | none => (st1, none)
        | some info =>
          if cfg.deduplicateDoppelgangers then
            let key := packageKey info.name info.version
            match jsMapGet st1.doppelgangerMap key with
            | some mtch =>
              if mtch.resolveToPath ≠ info.rootPath then
                let st2 : PluginState :=
                  ⟨jsMapSet st1.doppelgangerMap key
                      ⟨mtch.resolveToPath, jsSetAdd mtch.paths info.rootPath⟩,
                    st1.resolvedModuleIds⟩
                (st2, some (replaceFirst info.rootPath mtch.resolveToPath resolved))
              else (st1, none)
            | none =>
              (⟨jsMapSet st1.doppelgangerMap key ⟨info.rootPath, [info.rootPath]⟩,
                  st1.resolvedModuleIds⟩,
                none)
          else (st1, none)

/-- The module id the build proceeds with after the hook ran: the hook's
return value if it redirected, otherwise the host resolution. -/
def resolveOutcome (fs : FileSystem) (cfg : DuplicatePackagesConfig)
    (st : PluginState) (inp : ResolveCallInput) : Option (List String) :=
  match (resolveId fs cfg st inp).2 with
  | some r => some r
  | none => inp.hostResolved

/-- Folding a sequence of `resolveId` invocations over the plugin state. -/
def runTrace (fs : FileSystem) (cfg : DuplicatePackagesConfig)
    (st : PluginState) (ts : List ResolveCallInput) : PluginState :=
  ts.foldl (fun s i => (resolveId fs cfg s i).1) st

/-- One entry of `duplicatePackageErrors` (the source's
`DuplicatePackageError`): the package name, the set of distinct versions seen
for it (in first-seen order), and the configured maximum when an exception
existed for the package. -/
structure DuplicatePackageError where
  packageName : Option String
  versions : List (Option String)
  maxAllowedVersionCount : Option Nat
deriving DecidableEq, Repr

/-- The source's `DuplicateAnalysisResult`. -/
structure DuplicateAnalysisResult where
  duplicatePackageErrors : List DuplicatePackageError
  unusedExceptions : List String
deriving DecidableEq, Repr

/-- The `packagesMap` accumulation step of `analyzeForDuplicates`:
`packagesMap.get(name) ?? new Set()`, `versions.add(version)`,
`packagesMap.set(name, ...)`. -/
def addVersion (pm : List (Option String × List (Option String)))
    (n v : Option String) : List (Option String × List (Option String)) :=
  match jsMapGet pm n with
  | some versions => jsMapSet pm n (jsSetAdd versions v)
  | none => jsMapSet pm n (jsSetAdd [] v)

/-- The body of the first loop of `analyzeForDuplicates`, for one module id:
skip ids outside `node_modules` or without an owning manifest, otherwise
record the version under the package name. -/
def buildStep (fs : FileSystem)
    (pm : List (Option String × List (Option String)))
    (moduleId : List String) : List (Option String × List (Option String)) :=
  if !pathIncludesNodeModules moduleId then pm
  else
    match getPackageJsonForPath fs moduleId with
    | none => pm
    | some info => addVersion pm info.name info.version

/-- The first loop of `analyzeForDuplicates`: group the module ids that live
under `node_modules` and have an owning manifest by package name, collecting
the distinct versions of each. -/
def buildPackagesMap (fs : FileSystem) (moduleIds : List (List String)) :
    List (Option String × List (Option String)) :=
  moduleIds.foldl (buildStep fs) []

/-- `unusedExceptions.delete(packageName)`: `Set.prototype.delete` uses
SameValueZero, so a JS-`undefined` package name never removes a string key. -/
def deleteName (unused : List String) : Option String → List String
  | some s => unused.erase s
  | none => unused

/-- The body of the second loop of `analyzeForDuplicates`, for one
`packagesMap` entry: delete the name from `unusedExceptions`, then emit a
`DuplicatePackageError` when more than one distinct version was seen and no
exception covers the count.  NOTE: the JS property access
`config?.exceptions?.[packageName]` coerces an `undefined` name to the
property key `"undefined"` (`templateShow`); the model assumes the
`exceptions` object has no inherited prototype members. -/
def processEntry (cfg : DuplicatePackagesConfig)
    (acc : List DuplicatePackageError × List String)
    (e : Option String × List (Option String)) :
    List DuplicatePackageError × List String :=
  let unused := deleteName acc.2 e.1
  if 1 < e.2.length then
    match lookupException cfg (templateShow e.1) with
    | none => (acc.1 ++ [⟨e.1, e.2, none⟩], unused)
    | some mx =>
        if mx < e.2.length then (acc.1 ++ [⟨e.1, e.2, some mx⟩], unused)
        else (acc.1, unused)
  else (acc.1, unused)

/-- `analyzeForDuplicates` from the source (part_004 lines 339-376): the pure
duplicate analyzer shared by build mode and dev mode. -/
def analyzeForDuplicates (fs : FileSystem) (moduleIds : List (List String))
    (cfg : DuplicatePackagesConfig) : DuplicateAnalysisResult :=
  let packagesMap := buildPackagesMap fs moduleIds
  let acc := packagesMap.foldl (processEntry cfg) ([], exceptionKeys cfg)
  ⟨acc.1, acc.2⟩

/-- `hasIssues` as computed at both consumers of the analysis (the dev-server
endpoint, line 470, and `generateBundle`'s `hasErrors`, line 503):
`duplicatePackageErrors.length > 0 || unusedExceptions.size > 0`. -/
def hasIssues (r : DuplicateAnalysisResult) : Bool :=
  decide (0 < r.duplicatePackageErrors.length) ||
    decide (0 < r.unusedExceptions.length)

/-- One bullet line of the duplicate-packages section of the failure message.
`Array.from(versions).join(', ')` renders a JS-`undefined` version as the
empty string (`joinShow`); the template literal around `packageName` renders
`undefined` literally (`templateShow`). -/
def formatDuplicateError (e : DuplicatePackageError) : String :=
  let versionList := String.intercalate ", " (e.versions.map joinShow)
  let exceptionNote :=
    match e.maxAllowedVersionCount with
    | some mx =>
        " (exception allows max " ++ toString mx ++ ", found " ++
          toString e.versions.length ++ ")"
    | none => ""
  "  • " ++ templateShow e.packageName ++ ": " ++ versionList ++ exceptionNote

/-- One bullet line of the unused-exceptions section. -/
def formatUnusedException (s : String) : String :=
  "  • " ++ s

/-- The duplicate-packages part of the failure message. -/
def duplicatesSection (errors : List DuplicatePackageError) : String :=
  "Duplicate packages detected in bundle:\n\n" ++
    String.intercalate "\n" (errors.map formatDuplicateError) ++
    "\n\nMultiple versions of the same package can cause runtime errors and increase bundle size."

/-- The unused-exceptions part of the failure message. -/
def unusedSection (unused : List String) : String :=
  "Unused duplicate package exceptions:\n\n" ++
    String.intercalate "\n" (unused.map formatUnusedException) ++
    "\n\nThese duplicate package exceptions are not used. Please remove them from your configuration to vite-plugin-duplicate-packages."

/-- A file of the output bundle handed to `generateBundle`: only chunks carry
module ids. -/
inductive BundleFile where
  | chunk (modules : List (List String))
  | asset
deriving DecidableEq, Repr

/-- The module-id collection loop at the top of `generateBundle`. -/
def bundleModuleIds (bundle : List BundleFile) : List (List String) :=
  bundle.foldl
    (fun acc f =>
      match f with
      | BundleFile.chunk ms => acc ++ ms
      | BundleFile.asset => acc)
    []

/-- `generateBundle` from the source (part_004 lines 492-537): analyze the
bundle, and when there are errors raise one fatal `this.error(...)` whose
message joins the duplicate-packages section and the unused-exceptions
section.  `some msg` models the single fatal build-halting error, `none` a
passing build. -/
def generateBundle (fs : FileSystem) (cfg : DuplicatePackagesConfig)
    (bundle : List BundleFile) : Option String :=
  let r := analyzeForDuplicates fs (bundleModuleIds bundle) cfg
  let hasErrors :=
    decide (0 < r.duplicatePackageErrors.length) ||
      decide (0 < r.unusedExceptions.length)
  if hasErrors then
    let errorParts :=
      (if 0 < r.duplicatePackageErrors.length then
        [duplicatesSection r.duplicatePackageErrors]
      else []) ++
      (if 0 < r.unusedExceptions.length then [unusedSection r.unusedExceptions]
      else [])
    some (String.intercalate "\n\n" errorParts)
  else none

theorem replaceFirstPrefixEq (needle repl l : List String)
    (hne : needle ≠ []) (hp : needle <+: l) :
    replaceFirst needle repl l = repl ++ l.drop needle.length := by
  cases l with
  | nil =>
      obtain ⟨t, ht⟩ := hp
      simp at ht
      exact absurd ht.1 hne
  | cons x xs =>
      rw [replaceFirst, if_pos (List.isPrefixOf_iff_prefix.mpr hp)]

/-- A prefix decomposes the longer list into the prefix and the dropped
remainder. -/
theorem prefixAppendDrop (l₁ l₂ : List String) (h : l₁ <+: l₂) :
    l₂ = l₁ ++ l₂.drop l₁.length := by
  obtain ⟨t, rfl⟩ := h
  simp

theorem jsMapGet_set_self {α β : Type} [DecidableEq α]
    (m : List (α × β)) (k : α) (v : β) :
    jsMapGet (jsMapSet m k v) k = some v := by
  induction m with
  | nil => simp [jsMapGet, jsMapSet]
  | cons e rest ih =>
      obtain ⟨k', v'⟩ := e
      by_cases h : k' = k
      · subst h
        simp [jsMapGet, jsMapSet]
      · simp [jsMapGet, jsMapSet, h, ih]

theorem jsMapGet_set_ne {α β : Type} [DecidableEq α]
    (m : List (α × β)) (k k' : α) (v : β) (h : k ≠ k') :
    jsMapGet (jsMapSet m k v) k' = jsMapGet m k' := by
  induction m with
  | nil => simp [jsMapGet, jsMapSet, h]
  | cons e rest ih =>
      obtain ⟨k'', v''⟩ := e
      by_cases h2 : k'' = k
      · subst h2
        simp [jsMapGet, jsMapSet, h]
      · simp only [jsMapSet, if_neg h2, jsMapGet]
        by_cases h3 : k'' = k'
        · simp [h3]
        · simp [h3, ih]

/-- Doppelganger canonicalization, case by case: given a resolution call
that passes all guards and resolves to a module owned by package `info`:
no entry — an entry is created with this root as canonical and the host
resolution stands (`null` returned); entry with equal canonical root —
pass-through, registry untouched; entry with a different canonical root —
the root is added to the observed set and the returned resolution is the
host-resolved path with the package-root prefix replaced by the canonical
root, the subpath preserved. -/
theorem resolveId_canonicalize_cases
    (fs : FileSystem) (cfg : DuplicatePackagesConfig) (st : PluginState)
    (inp : ResolveCallInput) (p : List String) (info : PackageInfo)
    (hdedup : cfg.deduplicateDoppelgangers = true)
    (him : importerFalsy inp.importer = false)
    (hsrc : sourceIsVirtual inp.source = false)
    (hres : inp.hostResolved = some p)
    (hnm : pathIncludesNodeModules p = true)
    (hinfo : getPackageJsonForPath fs p = some info) :
    (jsMapGet st.doppelgangerMap (packageKey info.name info.version) = none →
      (resolveId fs cfg st inp).2 = none ∧
      jsMapGet (resolveId fs cfg st inp).1.doppelgangerMap
          (packageKey info.name info.version) =
        some ⟨info.rootPath, [info.rootPath]⟩) ∧
    (∀ mtch,
      jsMapGet st.doppelgangerMap (packageKey info.name info.version) =
        some mtch →
      mtch.resolveToPath = info.rootPath →
      (resolveId fs cfg st inp).2 = none ∧
      (resolveId fs cfg st inp).1.doppelgangerMap = st.doppelgangerMap) ∧
    (∀ mtch,
      jsMapGet st.doppelgangerMap (packageKey info.name info.version) =
        some mtch →
      mtch.resolveToPath ≠ info.rootPath →
      (resolveId fs cfg st inp).2 =
        some (mtch.resolveToPath ++ p.drop info.rootPath.length) ∧
      jsMapGet (resolveId fs cfg st inp).1.doppelgangerMap
          (packageKey info.name info.version) =
        some ⟨mtch.resolveToPath, jsSetAdd mtch.paths info.rootPath⟩) := by
  have hguard : (importerFalsy inp.importer || sourceIsVirtual inp.source) = false := by
    rw [him, hsrc]
    rfl
  obtain ⟨hrp_ne, hrp_pre, -⟩ := getPackageJsonForPath_sound fs p info hinfo
  refine ⟨?_, ?_, ?_⟩
  · intro hnone
    simp only [resolveId, hguard, hres, hnm, hinfo, hdedup, hnone, Bool.not_true,
      Bool.false_eq_true, if_false, if_true, jsMapGet_set_self]
    simp
  · intro mtch hsome heq
    simp only [resolveId, hguard, hres, hnm, hinfo, hdedup, hsome, Bool.not_true,
      Bool.false_eq_true, if_false, if_true]
    rw [if_neg (by simp [heq])]
    simp
  · intro mtch hsome hne
    simp only [resolveId, hguard, hres, hnm, hinfo, hdedup, hsome, Bool.not_true,
      Bool.false_eq_true, if_false, if_true]
    rw [if_pos hne]
    constructor
    · simp only []
      rw [replaceFirstPrefixEq info.rootPath mtch.resolveToPath p hrp_ne hrp_pre]
    · simp only []
      rw [jsMapGet_set_self]

/-- C2: for every resolution call, canonicalization of an identity
`(name, version, rootPath)` behaves as specified — if no registry entry
exists for `name@version`, an entry is created with that `rootPath` as
canonical and the resolution is returned unchanged (no redirect); if an
entry exists and the `rootPath` equals the canonical root, the resolution is
returned unchanged; if an entry exists and the `rootPath` differs, the
`rootPath` is added to the entry's observed set and the returned resolution
is the host-resolved path with the original package-root prefix replaced by
the canonical root prefix, the subpath within the package preserved
unchanged. -/
theorem claim_C2_canonicalize_behavior
    (fs : FileSystem) (cfg : DuplicatePackagesConfig) (st : PluginState)
    (inp : ResolveCallInput) (p : List String) (info : PackageInfo)
    (hdedup : cfg.deduplicateDoppelgangers = true)
    (him : importerFalsy inp.importer = false)
    (hsrc : sourceIsVirtual inp.source = false)
    (hres : inp.hostResolved = some p)
    (hnm : pathIncludesNodeModules p = true)
    (hinfo : getPackageJsonForPath fs p = some info) :
    (jsMapGet st.doppelgangerMap (packageKey info.name info.version) = none →
      (resolveId fs cfg st inp).2 = none ∧
      jsMapGet (resolveId fs cfg st inp).1.doppelgangerMap
          (packageKey info.name info.version) =
        some ⟨info.rootPath, [info.rootPath]⟩) ∧
    (∀ mtch,
      jsMapGet st.doppelgangerMap (packageKey info.name info.version) =
        some mtch →
      mtch.resolveToPath = info.rootPath →
      (resolveId fs cfg st inp).2 = none ∧
      (resolveId fs cfg st inp).1.doppelgangerMap = st.doppelgangerMap) ∧
    (∀ mtch,
      jsMapGet st.doppelgangerMap (packageKey info.name info.version) =
        some mtch →
      mtch.resolveToPath ≠ info.rootPath →
      (resolveId fs cfg st inp).2 =
        some (mtch.resolveToPath ++ p.drop info.rootPath.length) ∧
      jsMapGet (resolveId fs cfg st inp).1.doppelgangerMap
          (packageKey info.name info.version) =
        some ⟨mtch.resolveToPath, jsSetAdd mtch.paths info.rootPath⟩) :=
  resolveId_canonicalize_cases fs cfg st inp p info hdedup him hsrc hres hnm
    hinfo

/-- Sample filesystem: `pkgY@1.0.0` installed at two roots (doppelgangers)
and `pkgY@2.0.0` at a third root. -/
def fsSample : FileSystem := fun dir =>
  if dir = ["", "dep1", "node_modules", "pkgY"] then
    ManifestReadResult.parsed ⟨some "pkgY", some "1.0.0"⟩
  else if dir = ["", "dep2", "node_modules", "pkgY"] then
    ManifestReadResult.parsed ⟨some "pkgY", some "1.0.0"⟩
  else if dir = ["", "node_modules", "pkgY"] then
    ManifestReadResult.parsed ⟨some "pkgY", some "2.0.0"⟩
  else ManifestReadResult.absent

/-- Sample configuration with doppelganger deduplication enabled. -/
def cfgDedup : DuplicatePackagesConfig := ⟨[], true, false⟩

/-- Sample registry state: `pkgY@1.0.0` already canonicalized at `dep1`. -/
def stSample : PluginState :=
  ⟨[("pkgY@1.0.0",
     ⟨["", "dep1", "node_modules", "pkgY"],
      [["", "dep1", "node_modules", "pkgY"]]⟩)],
   []⟩

/-- Sample resolution call: `pkgY` resolved by the host into the `dep2` copy. -/
def c2call : ResolveCallInput :=
  ⟨"pkgY", some "/workspace/app.js",
   some ["", "dep2", "node_modules", "pkgY", "index.js"]⟩

/-- Witness for C2: with `pkgY@1.0.0` canonical at `dep1`, resolving the
`dep2` copy redirects to the `dep1` path with the `index.js` subpath
preserved, and records `dep2` among the observed roots. -/
theorem claim_C2_witness :
    (resolveId fsSample cfgDedup stSample c2call).2 =
        some ["", "dep1", "node_modules", "pkgY", "index.js"] ∧
      jsMapGet (resolveId fsSample cfgDedup stSample c2call).1.doppelgangerMap
          "pkgY@1.0.0" =
        some ⟨["", "dep1", "node_modules", "pkgY"],
          [["", "dep1", "node_modules", "pkgY"],
           ["", "dep2", "node_modules", "pkgY"]]⟩ := by
  have h := claim_C2_canonicalize_behavior fsSample cfgDedup stSample c2call
    ["", "dep2", "node_modules", "pkgY", "index.js"]
    ⟨some "pkgY", some "1.0.0", ["", "dep2", "node_modules", "pkgY"]⟩
    rfl rfl rfl rfl rfl rfl
  obtain ⟨-, -, h3⟩ := h
  obtain ⟨hout, hmap⟩ := h3
    ⟨["", "dep1", "node_modules", "pkgY"],
     [["", "dep1", "node_modules", "pkgY"]]⟩
    rfl (by simp)
  exact ⟨hout, hmap⟩

/-- Exhaustive description of how one `resolveId` call can change the
doppelganger registry: either it leaves the map untouched, or the call
derived a package identity and the map changed by exactly one `Map.set` at
that identity's key — a fresh canonical entry, or an observed-set update that
keeps the canonical root. -/
theorem resolveId_map_cases (fs : FileSystem) (cfg : DuplicatePackagesConfig)
    (st : PluginState) (inp : ResolveCallInput) :
    (resolveId fs cfg st inp).1.doppelgangerMap = st.doppelgangerMap ∨
    ∃ p info,
      inp.hostResolved = some p ∧
      getPackageJsonForPath fs p = some info ∧
      ((jsMapGet st.doppelgangerMap (packageKey info.name info.version) = none ∧
        (resolveId fs cfg st inp).1.doppelgangerMap =
          jsMapSet st.doppelgangerMap (packageKey info.name info.version)
            ⟨info.rootPath, [info.rootPath]⟩) ∨
       (∃ mtch,
         jsMapGet st.doppelgangerMap (packageKey info.name info.version) =
           some mtch ∧
         mtch.resolveToPath ≠ info.rootPath ∧
         (resolveId fs cfg st inp).1.doppelgangerMap =
           jsMapSet st.doppelgangerMap (packageKey info.name info.version)
             ⟨mtch.resolveToPath, jsSetAdd mtch.paths info.rootPath⟩)) := by
  rw [resolveId]
  split
  · left; rfl
  · split
    · left; rfl
    · rename_i p hp
      split
      · left; rfl
      · split
        · left; rfl
        · rename_i info hinfo
          split
          · dsimp only
            split
            · rename_i mtch hmtch
              split
              · rename_i hne
                right
                exact ⟨p, info, hp, hinfo, Or.inr ⟨mtch, hmtch, hne, rfl⟩⟩
              · left; rfl
            · rename_i hnone
              right
              exact ⟨p, info, hp, hinfo, Or.inl ⟨hnone, rfl⟩⟩
          · left; rfl

/-- One `resolveId` call never changes the canonical root of an existing
registry entry: entries are only created fresh or extended in their observed
set. -/
theorem resolveId_resolveToPath_stable (fs : FileSystem)
    (cfg : DuplicatePackagesConfig) (st : PluginState) (inp : ResolveCallInput)
    (k : String) (e0 : DoppelgangerInfo)
    (h : jsMapGet st.doppelgangerMap k = some e0) :
    ∃ e1, jsMapGet (resolveId fs cfg st inp).1.doppelgangerMap k = some e1 ∧
      e1.resolveToPath = e0.resolveToPath := by
  rcases resolveId_map_cases fs cfg st inp with hsame | ⟨p, info, hp, hinfo, hcase⟩
  · exact ⟨e0, by rw [hsame]; exact h, rfl⟩
  · rcases hcase with ⟨hnone, hset⟩ | ⟨mtch, hmtch, hne, hset⟩
    · by_cases hk : packageKey info.name info.version = k
      · rw [hk, h] at hnone
        cases hnone
      · exact ⟨e0, by rw [hset, jsMapGet_set_ne _ _ _ _ hk]; exact h, rfl⟩
    · by_cases hk : packageKey info.name info.version = k
      · subst hk
        rw [hmtch] at h
        injection h with h2
        subst h2
        exact ⟨⟨mtch.resolveToPath, jsSetAdd mtch.paths info.rootPath⟩,
          by rw [hset, jsMapGet_set_self], rfl⟩
      · exact ⟨e0, by rw [hset, jsMapGet_set_ne _ _ _ _ hk]; exact h, rfl⟩

/-- Canonical-root stability extends over any sequence of further
resolutions. -/
theorem runTrace_resolveToPath_stable (fs : FileSystem)
    (cfg : DuplicatePackagesConfig) (ts : List ResolveCallInput) :
    ∀ (st : PluginState) (k : String) (e0 : DoppelgangerInfo),
      jsMapGet st.doppelgangerMap k = some e0 →
      ∃ e1, jsMapGet (runTrace fs cfg st ts).doppelgangerMap k = some e1 ∧
        e1.resolveToPath = e0.resolveToPath := by
  induction ts with
  | nil => intro st k e0 h; exact ⟨e0, h, rfl⟩
  | cons t rest ih =>
      intro st k e0 h
      obtain ⟨e1, h1, h2⟩ := resolveId_resolveToPath_stable fs cfg st t k e0 h
      obtain ⟨e2, h3, h4⟩ := ih (resolveId fs cfg st t).1 k e1 h1
      exact ⟨e2, h3, h4.trans h2⟩

/-- A `resolveId` call whose derived identity (if any) has a different key
leaves the registry unchanged at the given key. -/
theorem resolveId_map_other_key (fs : FileSystem)
    (cfg : DuplicatePackagesConfig) (st : PluginState) (inp : ResolveCallInput)
    (k : String)
    (hk : ∀ p info, inp.hostResolved = some p →
      getPackageJsonForPath fs p = some info →
      packageKey info.name info.version ≠ k) :
    jsMapGet (resolveId fs cfg st inp).1.doppelgangerMap k =
      jsMapGet st.doppelgangerMap k := by
  rcases resolveId_map_cases fs cfg st inp with hsame | ⟨p, info, hp, hinfo, hcase⟩
  · rw [hsame]
  · have hne := hk p info hp hinfo
    rcases hcase with ⟨-, hset⟩ | ⟨mtch, -, -, hset⟩ <;>
      rw [hset, jsMapGet_set_ne _ _ _ _ hne]

/-- The canonical root a state designates for a key: the entry's
`resolveToPath` when one exists, the given identity's own root otherwise. -/
def canonRootIn (m : List (String × DoppelgangerInfo)) (k : String)
    (dflt : List String) : List String :=
  match jsMapGet m k with
  | some e => e.resolveToPath
  | none => dflt

/-- Under the guards, the module id the build proceeds with is always the
canonical root followed by the module's subpath within the package, and after
the call the registry entry for the identity's key designates that same
canonical root. -/
theorem resolveId_outcome_canonical (fs : FileSystem)
    (cfg : DuplicatePackagesConfig) (st : PluginState) (inp : ResolveCallInput)
    (p : List String) (info : PackageInfo)
    (hdedup : cfg.deduplicateDoppelgangers = true)
    (him : importerFalsy inp.importer = false)
    (hsrc : sourceIsVirtual inp.source = false)
    (hres : inp.hostResolved = some p)
    (hnm : pathIncludesNodeModules p = true)
    (hinfo : getPackageJsonForPath fs p = some info) :
    resolveOutcome fs cfg st inp =
      some (canonRootIn st.doppelgangerMap (packageKey info.name info.version)
          info.rootPath ++ p.drop info.rootPath.length) ∧
    ∃ e, jsMapGet (resolveId fs cfg st inp).1.doppelgangerMap
        (packageKey info.name info.version) = some e ∧
      e.resolveToPath =
        canonRootIn st.doppelgangerMap (packageKey info.name info.version)
          info.rootPath := by
  obtain ⟨c1, c2, c3⟩ :=
    resolveId_canonicalize_cases fs cfg st inp p info hdedup him hsrc hres hnm
      hinfo
  obtain ⟨-, hpre, -⟩ := getPackageJsonForPath_sound fs p info hinfo
  have hdecomp := prefixAppendDrop info.rootPath p hpre
  cases hget : jsMapGet st.doppelgangerMap (packageKey info.name info.version) with
  | none =>
      obtain ⟨hret, hent⟩ := c1 hget
      refine ⟨?_, ⟨info.rootPath, [info.rootPath]⟩, hent, by
        simp [canonRootIn, hget]⟩
      rw [resolveOutcome, hret, hres]
      simp only [canonRootIn, hget]
      rw [← hdecomp]
  | some mtch =>
      by_cases heq : mtch.resolveToPath = info.rootPath
      · obtain ⟨hret, hmap⟩ := c2 mtch hget heq
        refine ⟨?_, mtch, by rw [hmap]; exact hget, by simp [canonRootIn, hget]⟩
        rw [resolveOutcome, hret, hres]
        simp only [canonRootIn, hget]
        rw [heq, ← hdecomp]
      · obtain ⟨hret, hent⟩ := c3 mtch hget heq
        refine ⟨?_, ⟨mtch.resolveToPath, jsSetAdd mtch.paths info.rootPath⟩,
          hent, by simp [canonRootIn, hget]⟩
        rw [resolveOutcome, hret]
        simp [canonRootIn, hget]

/-- C4: doppelganger canonicalization is idempotent — after a resolution of a
module of identity `(name, version, rootPath)`, resolving the same module
again (any number of other resolutions in between, and regardless of the
importer of the second call) yields the same canonical resolved path as the
first resolution. -/
theorem claim_C4_canonicalization_idempotent (fs : FileSystem)
    (cfg : DuplicatePackagesConfig) (st0 : PluginState)
    (inp inp' : ResolveCallInput) (ts : List ResolveCallInput)
    (p : List String) (info : PackageInfo)
    (hdedup : cfg.deduplicateDoppelgangers = true)
    (him : importerFalsy inp.importer = false)
    (hsrc : sourceIsVirtual inp.source = false)
    (hres : inp.hostResolved = some p)
    (hnm : pathIncludesNodeModules p = true)
    (hinfo : getPackageJsonForPath fs p = some info)
    (him' : importerFalsy inp'.importer = false)
    (hsrc' : sourceIsVirtual inp'.source = false)
    (hres' : inp'.hostResolved = some p) :
    resolveOutcome fs cfg
        (runTrace fs cfg (resolveId fs cfg st0 inp).1 ts) inp' =
      resolveOutcome fs cfg st0 inp := by
  obtain ⟨hout1, e1, he1, he1c⟩ :=
    resolveId_outcome_canonical fs cfg st0 inp p info hdedup him hsrc hres hnm
      hinfo
  obtain ⟨e2, he2, he2c⟩ :=
    runTrace_resolveToPath_stable fs cfg ts (resolveId fs cfg st0 inp).1
      (packageKey info.name info.version) e1 he1
  obtain ⟨hout2, -⟩ :=
    resolveId_outcome_canonical fs cfg
      (runTrace fs cfg (resolveId fs cfg st0 inp).1 ts) inp' p info hdedup
      him' hsrc' hres' hnm hinfo
  rw [hout2, hout1]
  have hc : canonRootIn
      (runTrace fs cfg (resolveId fs cfg st0 inp).1 ts).doppelgangerMap
      (packageKey info.name info.version) info.rootPath =
      canonRootIn st0.doppelgangerMap (packageKey info.name info.version)
        info.rootPath := by
    simp only [canonRootIn, he2]
    rw [he2c, he1c]
    rfl
  rw [hc]

/-- The second resolution call of the C4 witness: same host resolution,
different importer. -/
def c4call2 : ResolveCallInput :=
  ⟨"pkgY", some "/workspace/other.js",
   some ["", "dep2", "node_modules", "pkgY", "index.js"]⟩

/-- An interleaved resolution of the `pkgY@2.0.0` copy, used as trace noise
in the C4 witness. -/
def c4noise : ResolveCallInput :=
  ⟨"pkgY", some "/workspace/noise.js",
   some ["", "node_modules", "pkgY", "main.js"]⟩

/-- Witness for C4: resolving the `dep2` copy of `pkgY@1.0.0` (with `dep1`
already canonical), then an unrelated resolution of `pkgY@2.0.0`, then the
same `dep2` module again from a different importer, yields the same
canonical path both times. -/
theorem claim_C4_witness :
    resolveOutcome fsSample cfgDedup
        (runTrace fsSample cfgDedup
          (resolveId fsSample cfgDedup stSample c2call).1 [c4noise]) c4call2 =
      resolveOutcome fsSample cfgDedup stSample c2call ∧
    resolveOutcome fsSample cfgDedup stSample c2call =
      some ["", "dep1", "node_modules", "pkgY", "index.js"] :=
  ⟨claim_C4_canonicalization_idempotent fsSample cfgDedup stSample c2call
      c4call2 [c4noise] ["", "dep2", "node_modules", "pkgY", "index.js"]
      ⟨some "pkgY", some "1.0.0", ["", "dep2", "node_modules", "pkgY"]⟩
      rfl rfl rfl rfl rfl rfl rfl rfl rfl,
    by rfl⟩

theorem stringAppendCancel (s t u : String) (h : s ++ t = s ++ u) : t = u := by
  have hd : s.data ++ t.data = s.data ++ u.data := by
    rw [← String.data_append, ← String.data_append, h]
  exact String.ext (List.append_cancel_left hd)

/-- Where a registry entry can come from: its canonical root is the
`rootPath` of some identity the manifest resolver can actually derive, whose
key is the entry's key. -/
def entryOrigin (fs : FileSystem) (k : String) (e : DoppelgangerInfo) : Prop :=
  ∃ q pi, getPackageJsonForPath fs q = some pi ∧
    packageKey pi.name pi.version = k ∧ pi.rootPath = e.resolveToPath

theorem resolveId_entry_origin (fs : FileSystem)
    (cfg : DuplicatePackagesConfig) (st : PluginState) (inp : ResolveCallInput)
    (hst : ∀ k e, jsMapGet st.doppelgangerMap k = some e → entryOrigin fs k e) :
    ∀ k e, jsMapGet (resolveId fs cfg st inp).1.doppelgangerMap k = some e →
      entryOrigin fs k e := by
  intro k e he
  rcases resolveId_map_cases fs cfg st inp with hsame | ⟨p, info, hp, hinfo, hcase⟩
  · rw [hsame] at he
    exact hst k e he
  · rcases hcase with ⟨hnone, hset⟩ | ⟨mtch, hmtch, hne, hset⟩
    · rw [hset] at he
      by_cases hk : packageKey info.name info.version = k
      · subst hk
        rw [jsMapGet_set_self] at he
        injection he with he2
        subst he2
        exact ⟨p, info, hinfo, rfl, rfl⟩
      · rw [jsMapGet_set_ne _ _ _ _ hk] at he
        exact hst k e he
    · rw [hset] at he
      by_cases hk : packageKey info.name info.version = k
      · subst hk
        rw [jsMapGet_set_self] at he
        injection he with he2
        subst he2
        obtain ⟨q, pi, h1, h2, h3⟩ := hst _ mtch hmtch
        exact ⟨q, pi, h1, h2, h3⟩
      · rw [jsMapGet_set_ne _ _ _ _ hk] at he
        exact hst k e he

theorem runTrace_entry_origin (fs : FileSystem)
    (cfg : DuplicatePackagesConfig) (ts : List ResolveCallInput) :
    ∀ st : PluginState,
      (∀ k e, jsMapGet st.doppelgangerMap k = some e → entryOrigin fs k e) →
      ∀ k e, jsMapGet (runTrace fs cfg st ts).doppelgangerMap k = some e →
        entryOrigin fs k e := by
  induction ts with
  | nil => intro st hst; exact hst
  | cons t rest ih =>
      intro st hst
      exact ih _ (resolveId_entry_origin fs cfg st t hst)

/-- C5: two package identities with equal name but different versions are
never merged into one canonical registry entry — their keys are distinct, a
resolution of the one version never touches the registry entry of the other,
and in any run from a fresh plugin state the canonical root recorded for
`name@v1` is never the root path of the `name@v2` copy. -/
theorem claim_C5_versions_never_merged (fs : FileSystem)
    (cfg : DuplicatePackagesConfig) (n v1 v2 : String) (p2 r2 : List String)
    (ts : List ResolveCallInput)
    (hv : v1 ≠ v2)
    (hp2 : getPackageJsonForPath fs p2 = some ⟨some n, some v2, r2⟩) :
    packageKey (some n) (some v1) ≠ packageKey (some n) (some v2) ∧
    (∀ (st : PluginState) (inp2 : ResolveCallInput),
      inp2.hostResolved = some p2 →
      jsMapGet (resolveId fs cfg st inp2).1.doppelgangerMap
          (packageKey (some n) (some v1)) =
        jsMapGet st.doppelgangerMap (packageKey (some n) (some v1))) ∧
    (∀ e, jsMapGet (runTrace fs cfg emptyPluginState ts).doppelgangerMap
          (packageKey (some n) (some v1)) = some e →
      e.resolveToPath ≠ r2) := by
  have hkeys : packageKey (some n) (some v1) ≠ packageKey (some n) (some v2) :=
    fun h => hv (stringAppendCancel (n ++ "@") v1 v2 h)
  refine ⟨hkeys, ?_, ?_⟩
  · intro st inp2 hres2
    apply resolveId_map_other_key
    intro p info hpr hpi
    rw [hres2] at hpr
    injection hpr with hpp
    subst hpp
    rw [hp2] at hpi
    injection hpi with hpi2
    subst hpi2
    exact fun h => hkeys h.symm
  · intro e he hrr
    have horigin := runTrace_entry_origin fs cfg ts emptyPluginState
      (by intro k e0 h0; simp [emptyPluginState, jsMapGet] at h0) _ e he
    obtain ⟨q, pi, hq, hkey, hroot⟩ := horigin
    obtain ⟨-, -, m2, hm2, hm2n, hm2v, -⟩ :=
      getPackageJsonForPath_sound fs p2 _ hp2
    obtain ⟨-, -, mi, hmi, hmin, hmiv, -⟩ :=
      getPackageJsonForPath_sound fs q pi hq
    have hpir2 : pi.rootPath = r2 := hroot.trans hrr
    rw [hpir2, hm2] at hmi
    injection hmi with hmm
    subst hmm
    rw [hmin, ← hm2n, hmiv, ← hm2v] at hkey
    exact hkeys hkey.symm

/-- Witness for C5: after resolving `pkgY@1.0.0` (dep2 copy) and
`pkgY@2.0.0` from a fresh state, the keys are distinct and the canonical
root recorded for `pkgY@1.0.0` is not the `pkgY@2.0.0` root. -/
theorem claim_C5_witness :
    (["", "dep2", "node_modules", "pkgY"] : List String) ≠
        ["", "node_modules", "pkgY"] ∧
      packageKey (some "pkgY") (some "1.0.0") ≠
        packageKey (some "pkgY") (some "2.0.0") := by
  obtain ⟨hkeys, -, h3⟩ := claim_C5_versions_never_merged fsSample cfgDedup
    "pkgY" "1.0.0" "2.0.0" ["", "node_modules", "pkgY", "main.js"]
    ["", "node_modules", "pkgY"] [c2call, c4noise] (by decide) rfl
  refine ⟨?_, hkeys⟩
  exact h3 ⟨["", "dep2", "node_modules", "pkgY"],
    [["", "dep2", "node_modules", "pkgY"]]⟩ rfl

/-- The error contribution of one `packagesMap` entry in the second loop of
`analyzeForDuplicates` (zero or one `DuplicatePackageError`). -/
def emitError (cfg : DuplicatePackagesConfig)
    (e : Option String × List (Option String)) : List DuplicatePackageError :=
  if 1 < e.2.length then
    match lookupException cfg (templateShow e.1) with
    | none => [⟨e.1, e.2, none⟩]
    | some mx => if mx < e.2.length then [⟨e.1, e.2, some mx⟩] else []
  else []

/-- The `unusedExceptions` deletion step, as a fold step over entries. -/
def deleteStep (u : List String)
    (e : Option String × List (Option String)) : List String :=
  deleteName u e.1

/-- The second loop of `analyzeForDuplicates` accumulates the error list and
the unused-exception set independently: the final errors are the initial ones
followed by each entry's contribution in order, and the final unused set is
the fold of the deletions alone. -/
theorem processFold_split (cfg : DuplicatePackagesConfig)
    (entries : List (Option String × List (Option String))) :
    ∀ (es : List DuplicatePackageError) (us : List String),
      entries.foldl (processEntry cfg) (es, us) =
        (es ++ entries.flatMap (emitError cfg),
          entries.foldl deleteStep us) := by
  induction entries with
  | nil => intro es us; simp
  | cons e rest ih =>
      intro es us
      have hstep : processEntry cfg (es, us) e =
          (es ++ emitError cfg e, deleteStep us e) := by
        rw [processEntry, emitError, deleteStep]
        by_cases h1 : 1 < e.2.length
        · rw [if_pos h1, if_pos h1]
          cases hlk : lookupException cfg (templateShow e.1) with
          | none => simp
          | some mx =>
              by_cases h2 : mx < e.2.length
              · simp [h2]
              · simp [h2]
        · rw [if_neg h1, if_neg h1]
          simp
      rw [List.foldl_cons, hstep, ih, List.flatMap_cons]
      simp

/-- A configured exception key that no processed entry names survives the
deletion fold. -/
theorem deleteFold_mem_of_never (entries : List (Option String × List (Option String))) :
    ∀ (us : List String) (s : String), s ∈ us →
      (∀ e ∈ entries, e.1 ≠ some s) →
      s ∈ entries.foldl deleteStep us := by
  induction entries with
  | nil => intro us s hs _; simpa using hs
  | cons e rest ih =>
      intro us s hs hne
      rw [List.foldl_cons]
      refine ih (deleteStep us e) s ?_ (fun e' he' => hne e' (List.mem_cons_of_mem e he'))
      rw [deleteStep]
      cases he : e.1 with
      | none => simpa [deleteName] using hs
      | some t =>
          have hst : s ≠ t := by
            intro hst
            exact hne e (List.mem_cons_self e rest) (by rw [he, hst])
          simpa [deleteName] using (List.mem_erase_of_ne hst).mpr hs

/-- On a duplicate-free start set, the deletion fold is exactly a filter:
the keys that survive are those named by no processed entry. -/
theorem deleteFold_eq_filter (entries : List (Option String × List (Option String))) :
    ∀ us : List String, us.Nodup →
      entries.foldl deleteStep us =
        us.filter (fun s => decide (∀ e ∈ entries, e.1 ≠ some s)) := by
  induction entries with
  | nil => intro us _; simp
  | cons e rest ih =>
      intro us hnd
      rw [List.foldl_cons]
      have hstep : deleteStep us e =
          us.filter (fun s => decide (e.1 ≠ some s)) := by
        rw [deleteStep]
        cases he : e.1 with
        | none => simp [deleteName]
        | some t =>
            simp only [deleteName]
            rw [hnd.erase_eq_filter t]
            apply List.filter_congr
            intro a _
            by_cases hat : a = t
            · simp [hat]
            · have hb : (a != t) = true := bne_iff_ne.mpr hat
              rw [hb]
              symm
              rw [decide_eq_true_eq]
              exact fun h => hat (Option.some.inj h).symm
      rw [hstep, ih _ (hnd.filter _), List.filter_filter]
      apply List.filter_congr
      intro a _
      simp only [List.forall_mem_cons]
      by_cases h1 : e.1 = some a <;>
        by_cases h2 : ∀ e' ∈ rest, e'.1 ≠ some a <;>
          simp [h1, h2]

theorem jsSetAdd_mem {α : Type} [DecidableEq α] (s : List α) (a x : α) :
    x ∈ jsSetAdd s a ↔ x ∈ s ∨ x = a := by
  by_cases h : a ∈ s
  · rw [jsSetAdd, if_pos h]
    constructor
    · exact Or.inl
    · rintro (hx | rfl)
      · exact hx
      · exact h
  · rw [jsSetAdd, if_neg h]
    simp

theorem jsSetAdd_nodup {α : Type} [DecidableEq α] (s : List α) (a : α)
    (h : s.Nodup) : (jsSetAdd s a).Nodup := by
  by_cases hm : a ∈ s
  · rw [jsSetAdd, if_pos hm]
    exact h
  · rw [jsSetAdd, if_neg hm]
    simp [List.nodup_append, h, hm]

theorem jsMapGet_none_iff_keys {α β : Type} [DecidableEq α]
    (m : List (α × β)) (k : α) :
    jsMapGet m k = none ↔ k ∉ m.map Prod.fst := by
  induction m with
  | nil => simp [jsMapGet]
  | cons e rest ih =>
      obtain ⟨k', v'⟩ := e
      by_cases h : k' = k
      · subst h
        simp [jsMapGet]
      · rw [jsMapGet, if_neg h, ih]
        have hne : ¬k = k' := fun hh => h hh.symm
        simp [hne]

theorem jsMapGet_some_mem {α β : Type} [DecidableEq α]
    (m : List (α × β)) (k : α) (v : β) (h : jsMapGet m k = some v) :
    (k, v) ∈ m := by
  induction m with
  | nil => simp [jsMapGet] at h
  | cons e rest ih =>
      obtain ⟨k', v'⟩ := e
      by_cases hk : k' = k
      · subst hk
        rw [jsMapGet, if_pos rfl] at h
        injection h with h2
        subst h2
        exact List.mem_cons_self _ _
      · rw [jsMapGet, if_neg hk] at h
        exact List.mem_cons_of_mem _ (ih h)

theorem jsMapSet_keys {α β : Type} [DecidableEq α]
    (m : List (α × β)) (k : α) (v : β) :
    (jsMapSet m k v).map Prod.fst =
      if k ∈ m.map Prod.fst then m.map Prod.fst
      else m.map Prod.fst ++ [k] := by
  induction m with
  | nil => simp [jsMapSet]
  | cons e rest ih =>
      obtain ⟨k', v'⟩ := e
      by_cases h : k' = k
      · subst h
        simp [jsMapSet]
      · rw [jsMapSet, if_neg h]
        by_cases h2 : k ∈ rest.map Prod.fst
        · simp only [List.map_cons, ih, if_pos h2]
          rw [if_pos (by simp [h2])]
        · simp only [List.map_cons, ih, if_neg h2]
          have hne : ¬k = k' := fun hh => h hh.symm
          rw [if_neg (by simp [h2, hne])]
          simp

theorem jsMapSet_values {α β : Type} [DecidableEq α] (P : β → Prop)
    (m : List (α × β)) (k : α) (v : β)
    (hm : ∀ e ∈ m, P e.2) (hv : P v) :
    ∀ e ∈ jsMapSet m k v, P e.2 := by
  induction m with
  | nil =>
      intro e he
      rw [jsMapSet] at he
      have he2 : e = (k, v) := by simpa using he
      rw [he2]
      exact hv
  | cons e0 rest ih =>
      obtain ⟨k', v'⟩ := e0
      intro e he
      by_cases h : k' = k
      · subst h
        rw [jsMapSet, if_pos rfl] at he
        rcases List.mem_cons.mp he with rfl | hm2
        · exact hv
        · exact hm e (List.mem_cons_of_mem _ hm2)
      · rw [jsMapSet, if_neg h] at he
        rcases List.mem_cons.mp he with rfl | hm2
        · exact hm (k', v') (List.mem_cons_self _ _)
        · exact ih (fun e' he' => hm e' (List.mem_cons_of_mem _ he')) e hm2

/-- A module id contributes the pair `(n, v)` to the analysis: it lies under
`node_modules` and its owning manifest has name `n` and version `v`. -/
def observes (fs : FileSystem) (id : List String) (n v : Option String) :
    Prop :=
  pathIncludesNodeModules id = true ∧
  ∃ info, getPackageJsonForPath fs id = some info ∧
    info.name = n ∧ info.version = v

/-- A module id contributes package name `n` to the analysis. -/
def observesName (fs : FileSystem) (id : List String) (n : Option String) :
    Prop :=
  ∃ v, observes fs id n v

/-- Version `v` is recorded under name `n` in a packages map. -/
def memVersions (pm : List (Option String × List (Option String)))
    (n v : Option String) : Prop :=
  ∃ vs, jsMapGet pm n = some vs ∧ v ∈ vs

theorem addVersion_get_same (pm : List (Option String × List (Option String)))
    (n v : Option String) :
    jsMapGet (addVersion pm n v) n =
      some (jsSetAdd ((jsMapGet pm n).getD []) v) := by
  rw [addVersion]
  cases h : jsMapGet pm n <;> simp [h, jsMapGet_set_self]

theorem addVersion_get_other (pm : List (Option String × List (Option String)))
    (n v n' : Option String) (h : n ≠ n') :
    jsMapGet (addVersion pm n v) n' = jsMapGet pm n' := by
  rw [addVersion]
  cases jsMapGet pm n <;> simp [jsMapGet_set_ne _ _ _ _ h]

theorem addVersion_keys (pm : List (Option String × List (Option String)))
    (n v : Option String) :
    (addVersion pm n v).map Prod.fst =
      if n ∈ pm.map Prod.fst then pm.map Prod.fst
      else pm.map Prod.fst ++ [n] := by
  rw [addVersion]
  cases jsMapGet pm n <;> rw [jsMapSet_keys] <;>
    by_cases hm : n ∈ pm.map Prod.fst <;> simp [hm]

theorem addVersion_keysNodup (pm : List (Option String × List (Option String)))
    (n v : Option String) (h : (pm.map Prod.fst).Nodup) :
    ((addVersion pm n v).map Prod.fst).Nodup := by
  rw [addVersion_keys]
  by_cases hm : n ∈ pm.map Prod.fst
  · rw [if_pos hm]
    exact h
  · rw [if_neg hm]
    simp [List.nodup_append, h, hm]

theorem addVersion_valuesNodup (pm : List (Option String × List (Option String)))
    (n v : Option String) (h : ∀ e ∈ pm, e.2.Nodup) :
    ∀ e ∈ addVersion pm n v, e.2.Nodup := by
  rw [addVersion]
  cases hg : jsMapGet pm n with
  | none =>
      exact jsMapSet_values (fun l => l.Nodup) pm n _ h
        (jsSetAdd_nodup [] v List.nodup_nil)
  | some vs =>
      exact jsMapSet_values (fun l => l.Nodup) pm n _ h
        (jsSetAdd_nodup vs v (h (n, vs) (jsMapGet_some_mem pm n vs hg)))

theorem buildStep_keysNodup (fs : FileSystem)
    (pm : List (Option String × List (Option String))) (id : List String)
    (h : (pm.map Prod.fst).Nodup) :
    ((buildStep fs pm id).map Prod.fst).Nodup := by
  rw [buildStep]
  split
  · exact h
  · split
    · exact h
    · exact addVersion_keysNodup pm _ _ h

theorem buildStep_valuesNodup (fs : FileSystem)
    (pm : List (Option String × List (Option String))) (id : List String)
    (h : ∀ e ∈ pm, e.2.Nodup) :
    ∀ e ∈ buildStep fs pm id, e.2.Nodup := by
  rw [buildStep]
  split
  · exact h
  · split
    · exact h
    · exact addVersion_valuesNodup pm _ _ h

theorem buildStep_get_none_iff (fs : FileSystem)
    (pm : List (Option String × List (Option String))) (id : List String)
    (n : Option String) :
    jsMapGet (buildStep fs pm id) n = none ↔
      jsMapGet pm n = none ∧ ¬ observesName fs id n := by
  rw [buildStep]
  split
  · rename_i hskip
    have hobs : ¬ observesName fs id n := by
      rintro ⟨v, hinc, -⟩
      rw [hinc] at hskip
      simp at hskip
    simp [hobs]
  · rename_i hkeep
    split
    · rename_i hgp
      have hobs : ¬ observesName fs id n := by
        rintro ⟨v, -, info, hinfo, -⟩
        rw [hgp] at hinfo
        cases hinfo
    
      simp [hobs]
    · rename_i info hgp
      have hinc : pathIncludesNodeModules id = true := by simpa using hkeep
      by_cases hn : info.name = n
      · subst hn
        constructor
        · intro h
          rw [addVersion_get_same] at h
          cases h
        · rintro ⟨-, hobs⟩
          exact absurd ⟨info.version, hinc, info, hgp, rfl, rfl⟩ hobs
      · rw [addVersion_get_other pm info.name info.version n hn]
        have hobs : ¬ observesName fs id n := by
          rintro ⟨v, -, info', hinfo', hname, -⟩
          rw [hgp] at hinfo'
          injection hinfo' with hh
          subst hh
          exact hn hname
        simp [hobs]

theorem buildStep_memVersions_iff (fs : FileSystem)
    (pm : List (Option String × List (Option String))) (id : List String)
    (n v : Option String) :
    memVersions (buildStep fs pm id) n v ↔
      memVersions pm n v ∨ observes fs id n v := by
  rw [buildStep]
  split
  · rename_i hskip
    have hobs : ¬ observes fs id n v := by
      rintro ⟨hinc, -⟩
      rw [hinc] at hskip
      simp at hskip
    simp [hobs]
  · rename_i hkeep
    split
    · rename_i hgp
      have hobs : ¬ observes fs id n v := by
        rintro ⟨-, info, hinfo, -⟩
        rw [hgp] at hinfo
        cases hinfo
      simp [hobs]
    · rename_i info hgp
      have hinc : pathIncludesNodeModules id = true := by simpa using hkeep
      by_cases hn : info.name = n
      · subst hn
        have hobs : observes fs id info.name v ↔ v = info.version := by
          constructor
          · rintro ⟨-, info', hinfo', -, hver⟩
            rw [hgp] at hinfo'
            injection hinfo' with hh
            subst hh
            exact hver.symm
          · rintro rfl
            exact ⟨hinc, info, hgp, rfl, rfl⟩
        constructor
        · rintro ⟨vs, hvs, hv⟩
          rw [addVersion_get_same] at hvs
          injection hvs with hh
          subst hh
          rcases (jsSetAdd_mem _ _ _).mp hv with hold | rfl
          · left
            cases hg : jsMapGet pm info.name with
            | none =>
                rw [hg] at hold
                simp at hold
            | some vs0 =>
                rw [hg] at hold
                exact ⟨vs0, hg, by simpa using hold⟩
          · right
            exact hobs.mpr rfl
        · rintro (⟨vs, hvs, hv⟩ | hobs2)
          · refine ⟨_, addVersion_get_same pm info.name info.version, ?_⟩
            apply (jsSetAdd_mem _ _ _).mpr
            left
            rw [hvs]
            simpa using hv
          · refine ⟨_, addVersion_get_same pm info.name info.version, ?_⟩
            apply (jsSetAdd_mem _ _ _).mpr
            right
            exact hobs.mp hobs2
      · have hobs : ¬ observes fs id n v := by
          rintro ⟨-, info', hinfo', hname, -⟩
          rw [hgp] at hinfo'
          injection hinfo' with hh
          subst hh
          exact hn hname
        rw [memVersions, memVersions, addVersion_get_other pm info.name info.version n hn]
        simp [hobs]

theorem buildFold_spec (fs : FileSystem) (ids : List (List String)) :
    ∀ pm : List (Option String × List (Option String)),
      (pm.map Prod.fst).Nodup → (∀ e ∈ pm, e.2.Nodup) →
      ((ids.foldl (buildStep fs) pm).map Prod.fst).Nodup ∧
      (∀ e ∈ ids.foldl (buildStep fs) pm, e.2.Nodup) ∧
      (∀ n, jsMapGet (ids.foldl (buildStep fs) pm) n = none ↔
        jsMapGet pm n = none ∧ ∀ id ∈ ids, ¬ observesName fs id n) ∧
      (∀ n v, memVersions (ids.foldl (buildStep fs) pm) n v ↔
        memVersions pm n v ∨ ∃ id ∈ ids, observes fs id n v) := by
  induction ids with
  | nil =>
      intro pm h1 h2
      refine ⟨h1, h2, ?_, ?_⟩ <;> simp
  | cons id rest ih =>
      intro pm h1 h2
      obtain ⟨g1, g2, g3, g4⟩ := ih (buildStep fs pm id)
        (buildStep_keysNodup fs pm id h1) (buildStep_valuesNodup fs pm id h2)
      refine ⟨g1, g2, ?_, ?_⟩
      · intro n
        rw [List.foldl_cons, g3 n, buildStep_get_none_iff]
        constructor
        · rintro ⟨⟨ha, hb⟩, hc⟩
          refine ⟨ha, fun id' hid' => ?_⟩
          rcases List.mem_cons.mp hid' with rfl | hm
          · exact hb
          · exact hc id' hm
        · rintro ⟨ha, hb⟩
          exact ⟨⟨ha, hb id (List.mem_cons_self _ _)⟩,
            fun id' hid' => hb id' (List.mem_cons_of_mem _ hid')⟩
      · intro n v
        rw [List.foldl_cons, g4 n v, buildStep_memVersions_iff]
        constructor
        · rintro ((h | h) | ⟨id', hid', h⟩)
          · exact Or.inl h
          · exact Or.inr ⟨id, List.mem_cons_self _ _, h⟩
          · exact Or.inr ⟨id', List.mem_cons_of_mem _ hid', h⟩
        · rintro (h | ⟨id', hid', h⟩)
          · exact Or.inl (Or.inl h)
          · rcases List.mem_cons.mp hid' with rfl | hm
            · exact Or.inl (Or.inr h)
            · exact Or.inr ⟨id', hm, h⟩

theorem buildPackagesMap_spec (fs : FileSystem) (ids : List (List String)) :
    ((buildPackagesMap fs ids).map Prod.fst).Nodup ∧
    (∀ e ∈ buildPackagesMap fs ids, e.2.Nodup) ∧
    (∀ n, jsMapGet (buildPackagesMap fs ids) n = none ↔
      ∀ id ∈ ids, ¬ observesName fs id n) ∧
    (∀ n v, memVersions (buildPackagesMap fs ids) n v ↔
      ∃ id ∈ ids, observes fs id n v) := by
  obtain ⟨g1, g2, g3, g4⟩ := buildFold_spec fs ids [] (by simp) (by simp)
  rw [buildPackagesMap]
  refine ⟨g1, g2, fun n => ?_, fun n v => ?_⟩
  · rw [g3 n]
    simp [jsMapGet]
  · rw [g4 n v]
    simp [memVersions, jsMapGet]

/-- `analyzeForDuplicates`, decomposed: the error list is the concatenation
of each grouped package's contribution in first-seen order, and the unused
set is the configured keys after deleting every observed package name. -/
theorem analyzeForDuplicates_eq (fs : FileSystem) (ids : List (List String))
    (cfg : DuplicatePackagesConfig) :
    analyzeForDuplicates fs ids cfg =
      ⟨(buildPackagesMap fs ids).flatMap (emitError cfg),
       (buildPackagesMap fs ids).foldl deleteStep (exceptionKeys cfg)⟩ := by
  rw [analyzeForDuplicates, processFold_split]
  simp

theorem emitError_mem_iff (cfg : DuplicatePackagesConfig)
    (entry : Option String × List (Option String)) (e : DuplicatePackageError) :
    e ∈ emitError cfg entry ↔
      e = ⟨entry.1, entry.2, lookupException cfg (templateShow entry.1)⟩ ∧
      1 < entry.2.length ∧
      (∀ mx, lookupException cfg (templateShow entry.1) = some mx →
        mx < entry.2.length) := by
  rw [emitError]
  by_cases h1 : 1 < entry.2.length
  · rw [if_pos h1]
    cases hlk : lookupException cfg (templateShow entry.1) with
    | none => simp [h1, hlk]
    | some mx =>
        by_cases h2 : mx < entry.2.length
        · simp [h1, h2]
        · simp [h1, h2]
  · rw [if_neg h1]
    simp [h1]

theorem mem_iff_jsMapGet_of_keysNodup {α β : Type} [DecidableEq α]
    (m : List (α × β)) (hnd : (m.map Prod.fst).Nodup) (k : α) (v : β) :
    (k, v) ∈ m ↔ jsMapGet m k = some v := by
  constructor
  · intro hm
    induction m with
    | nil => simp at hm
    | cons e rest ih =>
        obtain ⟨k', v'⟩ := e
        rcases List.mem_cons.mp hm with he | hm2
        · injection he with he1 he2
          subst he1
          subst he2
          rw [jsMapGet, if_pos rfl]
        · have hk : k' ≠ k := by
            intro hk
            subst hk
            have : k' ∈ rest.map Prod.fst :=
              List.mem_map.mpr ⟨(k', v), hm2, rfl⟩
            exact (List.nodup_cons.mp (by simpa using hnd)).1 this
          rw [jsMapGet, if_neg hk]
          exact ih (List.nodup_cons.mp (by simpa using hnd)).2 hm2
  · exact jsMapGet_some_mem m k v

/-- C6: a configured exception whose package name is never observed in the
module set stays in `unusedExceptions`, and the resulting report has
`hasIssues = true`. -/
theorem claim_C6_never_observed_exception (fs : FileSystem)
    (ids : List (List String)) (cfg : DuplicatePackagesConfig) (s : String)
    (hs : s ∈ exceptionKeys cfg)
    (hnever : ∀ id ∈ ids, ∀ info : PackageInfo,
      pathIncludesNodeModules id = true →
      getPackageJsonForPath fs id = some info → info.name ≠ some s) :
    s ∈ (analyzeForDuplicates fs ids cfg).unusedExceptions ∧
    hasIssues (analyzeForDuplicates fs ids cfg) = true := by
  have hmem : s ∈ (analyzeForDuplicates fs ids cfg).unusedExceptions := by
    rw [analyzeForDuplicates_eq]
    apply deleteFold_mem_of_never (buildPackagesMap fs ids)
      (exceptionKeys cfg) s hs
    intro e he heq
    have hkey : e.1 ∈ (buildPackagesMap fs ids).map Prod.fst :=
      List.mem_map.mpr ⟨e, he, rfl⟩
    have hnone := (buildPackagesMap_spec fs ids).2.2.1 e.1
    have hsome : jsMapGet (buildPackagesMap fs ids) e.1 ≠ none := by
      rw [Ne, jsMapGet_none_iff_keys]
      simpa using hkey
    have hex : ¬ ∀ id ∈ ids, ¬ observesName fs id e.1 :=
      fun hall => hsome (hnone.mpr hall)
    push_neg at hex
    obtain ⟨id, hid, hobs⟩ := hex
    obtain ⟨v, hinc, info, hinfo, hname, -⟩ := hobs
    exact hnever id hid info hinc hinfo (by rw [hname, heq])
  refine ⟨hmem, ?_⟩
  have hne : (analyzeForDuplicates fs ids cfg).unusedExceptions ≠ [] := by
    intro hnil
    rw [hnil] at hmem
    simp at hmem
  have hlen : 0 < (analyzeForDuplicates fs ids cfg).unusedExceptions.length :=
    List.length_pos.mpr hne
  simp [hasIssues, hlen]

/-- Sample filesystem for the analyzer claims: a single `pkgA@1.0.0` under
`node_modules`. -/
def fsA : FileSystem := fun dir =>
  if dir = ["", "node_modules", "pkgA"] then
    ManifestReadResult.parsed ⟨some "pkgA", some "1.0.0"⟩
  else ManifestReadResult.absent

/-- The module path of the `pkgA` module. -/
def pkgAModule : List String := ["", "node_modules", "pkgA", "index.js"]

/-- Configuration with an exception allowing `pkgA` up to two versions. -/
def cfgA : DuplicatePackagesConfig := ⟨[("pkgA", 2)], false, false⟩

/-- Configuration with an exception for `pkgZ`, a package that never occurs. -/
def cfgZ : DuplicatePackagesConfig := ⟨[("pkgZ", 3)], false, false⟩

/-- Witness for C6: the `pkgZ` exception is never exercised by the one-module
set, so it is reported unused and the report has issues. -/
theorem claim_C6_witness :
    "pkgZ" ∈ (analyzeForDuplicates fsA [pkgAModule] cfgZ).unusedExceptions ∧
    hasIssues (analyzeForDuplicates fsA [pkgAModule] cfgZ) = true := by
  apply claim_C6_never_observed_exception fsA [pkgAModule] cfgZ "pkgZ"
    (by simp [exceptionKeys, cfgZ])
  intro id hid info hinc hinfo
  have hid2 : id = pkgAModule := by simpa using hid
  subst hid2
  rw [show getPackageJsonForPath fsA pkgAModule =
    some ⟨some "pkgA", some "1.0.0", ["", "node_modules", "pkgA"]⟩ from rfl]
    at hinfo
  injection hinfo with hh
  subst hh
  simp

/-- C1 evaluated at the code's failing input: `pkgA` is observed with exactly
one distinct version while an exception is configured for it, yet the
analyzer removes `pkgA` from `unusedExceptions` (the loop deletes every
observed package name unconditionally), so the report is clean — the claim
(and the option's own documentation, "will error if there are no
duplicates") requires `pkgA` to be reported as an unused exception. -/
theorem claim_C1_unused_exception_not_reported :
    getPackageJsonForPath fsA pkgAModule =
      some ⟨some "pkgA", some "1.0.0", ["", "node_modules", "pkgA"]⟩ ∧
    analyzeForDuplicates fsA [pkgAModule] cfgA =
      ⟨[], []⟩ ∧
    hasIssues (analyzeForDuplicates fsA [pkgAModule] cfgA) = false :=
  ⟨rfl, rfl, rfl⟩

/-- C10: a nearest manifest defining at least one of `name`/`version` is
authoritative — the resolver stops climbing and returns the manifest's
fields verbatim (the missing one `undefined`), that identity's registry key
renders the missing field literally as `undefined`, and the identity
participates in duplicate grouping under its (possibly `undefined`) name
with its (possibly `undefined`) version in the version set. -/
theorem claim_C10_partial_manifest_authoritative (fs : FileSystem)
    (path root : List String) (m : Manifest)
    (hfr : findRoot fs path = some root)
    (hm : fs root = ManifestReadResult.parsed m)
    (hsome : ¬(m.name = none ∧ m.version = none)) :
    getPackageJsonForPath fs path = some ⟨m.name, m.version, root⟩ ∧
    (m.version = none →
      packageKey m.name m.version = templateShow m.name ++ "@" ++ "undefined") ∧
    (m.name = none →
      packageKey m.name m.version = "undefined" ++ "@" ++ templateShow m.version) ∧
    (∀ ids : List (List String), path ∈ ids →
      pathIncludesNodeModules path = true →
      ∃ vs, jsMapGet (buildPackagesMap fs ids) m.name = some vs ∧
        m.version ∈ vs) := by
  have hgp : getPackageJsonForPath fs path = some ⟨m.name, m.version, root⟩ := by
    rw [getPackageJsonForPath_eq, hfr]
    simp only [hm]
    rw [if_neg hsome]
  refine ⟨hgp, ?_, ?_, ?_⟩
  · intro hv
    rw [packageKey, hv]
    rfl
  · intro hn
    rw [packageKey, hn]
    rfl
  · intro ids hin hinc
    have hmv := ((buildPackagesMap_spec fs ids).2.2.2 m.name m.version).mpr
      ⟨path, hin, hinc, ⟨m.name, m.version, root⟩, hgp, rfl, rfl⟩
    exact hmv

/-- Sample filesystem for C10: `pkgB` has a manifest with a `name` but no
`version`. -/
def fsB : FileSystem := fun dir =>
  if dir = ["", "node_modules", "pkgB"] then
    ManifestReadResult.parsed ⟨some "pkgB", none⟩
  else ManifestReadResult.absent

/-- The module path of the `pkgB` module. -/
def pkgBModule : List String := ["", "node_modules", "pkgB", "index.js"]

/-- Witness for C10: the name-only `pkgB` manifest is authoritative, keys as
`pkgB@undefined`, and groups with an `undefined` version entry. -/
theorem claim_C10_witness :
    getPackageJsonForPath fsB pkgBModule =
      some ⟨some "pkgB", none, ["", "node_modules", "pkgB"]⟩ ∧
    packageKey (some "pkgB") none = "pkgB@undefined" ∧
    (∃ vs, jsMapGet (buildPackagesMap fsB [pkgBModule]) (some "pkgB") =
        some vs ∧ none ∈ vs) := by
  obtain ⟨h1, h2, -, h4⟩ := claim_C10_partial_manifest_authoritative fsB
    pkgBModule ["", "node_modules", "pkgB"] ⟨some "pkgB", none⟩
    rfl rfl (by simp)
  exact ⟨h1, (h2 rfl).trans rfl, h4 [pkgBModule] (by simp) rfl⟩

/-- C3: the end-of-build gate raises its fatal error exactly when the
analysis report has issues (`hasIssues` true iff either the error list or
the unused-exception set is non-empty), and when both categories are present
the single error message is the duplicate-packages section and the
unused-exceptions section joined into one combined failure. -/
theorem claim_C3_policy_gate (fs : FileSystem) (cfg : DuplicatePackagesConfig)
    (bundle : List BundleFile) :
    ((generateBundle fs cfg bundle).isSome = true ↔
      hasIssues (analyzeForDuplicates fs (bundleModuleIds bundle) cfg) =
        true) ∧
    ((analyzeForDuplicates fs (bundleModuleIds bundle)
        cfg).duplicatePackageErrors ≠ [] →
      (analyzeForDuplicates fs (bundleModuleIds bundle)
        cfg).unusedExceptions ≠ [] →
      generateBundle fs cfg bundle =
        some (duplicatesSection (analyzeForDuplicates fs
            (bundleModuleIds bundle) cfg).duplicatePackageErrors ++
          "\n\n" ++
          unusedSection (analyzeForDuplicates fs
            (bundleModuleIds bundle) cfg).unusedExceptions)) := by
  constructor
  · by_cases hE : 0 < (analyzeForDuplicates fs (bundleModuleIds bundle)
        cfg).duplicatePackageErrors.length
    · simp [generateBundle, hasIssues, hE]
    · by_cases hU : 0 < (analyzeForDuplicates fs (bundleModuleIds bundle)
          cfg).unusedExceptions.length
      · simp [generateBundle, hasIssues, hE, hU]
      · simp [generateBundle, hasIssues, hE, hU]
  · intro hne hnu
    have hE : 0 < (analyzeForDuplicates fs (bundleModuleIds bundle)
        cfg).duplicatePackageErrors.length := List.length_pos.mpr hne
    have hU : 0 < (analyzeForDuplicates fs (bundleModuleIds bundle)
        cfg).unusedExceptions.length := List.length_pos.mpr hnu
    simp [generateBundle, hE, hU]
    rfl

/-- Sample filesystem with a true version duplication: `pkgX@1.0.0` and
`pkgX@2.0.0` both present. -/
def fsX : FileSystem := fun dir =>
  if dir = ["", "a", "node_modules", "pkgX"] then
    ManifestReadResult.parsed ⟨some "pkgX", some "1.0.0"⟩
  else if dir = ["", "node_modules", "pkgX"] then
    ManifestReadResult.parsed ⟨some "pkgX", some "2.0.0"⟩
  else ManifestReadResult.absent

/-- A bundle with one chunk holding both `pkgX` copies. -/
def bundleX : List BundleFile :=
  [BundleFile.chunk [["", "a", "node_modules", "pkgX", "index.js"],
    ["", "node_modules", "pkgX", "index.js"]]]

/-- Witness for C3: with a real duplicate (`pkgX` at two versions) and an
unused exception (`pkgZ`), the gate fires once with both sections combined. -/
theorem claim_C3_witness :
    (generateBundle fsX cfgZ bundleX).isSome = true ∧
    generateBundle fsX cfgZ bundleX =
      some (duplicatesSection (analyzeForDuplicates fsX
          (bundleModuleIds bundleX) cfgZ).duplicatePackageErrors ++
        "\n\n" ++
        unusedSection (analyzeForDuplicates fsX
          (bundleModuleIds bundleX) cfgZ).unusedExceptions) := by
  obtain ⟨h1, h2⟩ := claim_C3_policy_gate fsX cfgZ bundleX
  refine ⟨h1.mpr (by rfl), h2 (by decide) (by decide)⟩

/-- C8: every duplicate error in the analysis carries the full duplicate-free
list of observed versions (more than one) and is annotated in the failure
message with the configured maximum and the actual count exactly when an
exception was configured for the package (in which case the count exceeds
it); without a configured exception the line is the bare name and version
list; each unused exception renders as its bare package name; and the
duplicate section of the failure message enumerates the per-error lines in
order. -/
theorem claim_C8_failure_message_content (fs : FileSystem)
    (ids : List (List String)) (cfg : DuplicatePackagesConfig) :
    (∀ e ∈ (analyzeForDuplicates fs ids cfg).duplicatePackageErrors,
      e.versions.Nodup ∧ 1 < e.versions.length ∧
      e.maxAllowedVersionCount =
        lookupException cfg (templateShow e.packageName) ∧
      (∀ mx, e.maxAllowedVersionCount = some mx →
        mx < e.versions.length ∧
        formatDuplicateError e =
          "  • " ++ templateShow e.packageName ++ ": " ++
            String.intercalate ", " (e.versions.map joinShow) ++
            " (exception allows max " ++ toString mx ++ ", found " ++
            toString e.versions.length ++ ")") ∧
      (e.maxAllowedVersionCount = none →
        formatDuplicateError e =
          "  • " ++ templateShow e.packageName ++ ": " ++
            String.intercalate ", " (e.versions.map joinShow))) ∧
    (∀ s ∈ (analyzeForDuplicates fs ids cfg).unusedExceptions,
      formatUnusedException s = "  • " ++ s) ∧
    duplicatesSection
        (analyzeForDuplicates fs ids cfg).duplicatePackageErrors =
      "Duplicate packages detected in bundle:\n\n" ++
        String.intercalate "\n"
          ((analyzeForDuplicates fs ids
            cfg).duplicatePackageErrors.map formatDuplicateError) ++
        "\n\nMultiple versions of the same package can cause runtime errors and increase bundle size." := by
  refine ⟨?_, fun s _ => rfl, rfl⟩
  intro e he
  rw [analyzeForDuplicates_eq] at he
  simp only [List.mem_flatMap] at he
  obtain ⟨entry, hentry, hmem⟩ := he
  rw [emitError_mem_iff] at hmem
  obtain ⟨rfl, hlen, hall⟩ := hmem
  refine ⟨(buildPackagesMap_spec fs ids).2.1 entry hentry, hlen, rfl, ?_, ?_⟩
  · intro mx hmx
    have hmx2 : lookupException cfg (templateShow entry.1) = some mx := hmx
    refine ⟨hall mx hmx, ?_⟩
    rw [formatDuplicateError]
    simp only [hmx2]
    simp [String.append_assoc]
  · intro hmx
    have hmx2 : lookupException cfg (templateShow entry.1) = none := hmx
    rw [formatDuplicateError]
    simp only [hmx2]
    simp

/-- Module ids of the two `pkgX` copies. -/
def idsX : List (List String) :=
  [["", "a", "node_modules", "pkgX", "index.js"],
   ["", "node_modules", "pkgX", "index.js"]]

/-- Configuration with a `pkgX` exception that is still exceeded and an
unused `pkgZ` exception. -/
def cfgXZ : DuplicatePackagesConfig := ⟨[("pkgX", 1), ("pkgZ", 3)], false, false⟩

/-- Witness for C8: the `pkgX` error line carries both versions and the
exceeded-exception annotation; the unused `pkgZ` exception renders bare. -/
theorem claim_C8_witness :
    formatDuplicateError
        ⟨some "pkgX", [some "1.0.0", some "2.0.0"], some 1⟩ =
      "  • pkgX: 1.0.0, 2.0.0 (exception allows max 1, found 2)" ∧
    formatUnusedException "pkgZ" = "  • pkgZ" := by
  obtain ⟨h1, h2, -⟩ := claim_C8_failure_message_content fsX idsX cfgXZ
  constructor
  · have he : (⟨some "pkgX", [some "1.0.0", some "2.0.0"], some 1⟩ :
        DuplicatePackageError) ∈
        (analyzeForDuplicates fsX idsX cfgXZ).duplicatePackageErrors := by
      decide
    obtain ⟨-, -, -, h4, -⟩ := h1 _ he
    have hf := (h4 1 rfl).2
    rw [hf]
    rfl
  · exact h2 "pkgZ" (by decide)

/-- C7: the manifest resolver returns not-found, silently, when no manifest
exists up the tree or the located manifest fails to parse (or parses falsy);
a located manifest with both `name` and `version` absent is a non-owning
placeholder and the search is retried one directory above the current root;
and a returned identity always comes from a parsed manifest defining at
least one of the two fields. -/
theorem claim_C7_resolver_error_handling (fs : FileSystem)
    (p : List String) :
    (findRoot fs p = none → getPackageJsonForPath fs p = none) ∧
    (∀ root, findRoot fs p = some root →
      fs root = ManifestReadResult.unparseable →
      getPackageJsonForPath fs p = none) ∧
    (∀ root, findRoot fs p = some root →
      fs root = ManifestReadResult.nullManifest →
      getPackageJsonForPath fs p = none) ∧
    (∀ root m, findRoot fs p = some root →
      fs root = ManifestReadResult.parsed m →
      m.name = none → m.version = none →
      getPackageJsonForPath fs p = getPackageJsonForPath fs root.dropLast) ∧
    (∀ info, getPackageJsonForPath fs p = some info →
      ∃ m, fs info.rootPath = ManifestReadResult.parsed m ∧
        ¬(m.name = none ∧ m.version = none)) := by
  refine ⟨?_, ?_, ?_, ?_, ?_⟩
  · intro h
    rw [getPackageJsonForPath_eq, h]
  · intro root h1 h2
    rw [getPackageJsonForPath_eq, h1]
    simp only [h2]
  · intro root h1 h2
    rw [getPackageJsonForPath_eq, h1]
    simp only [h2]
  · intro root m h1 h2 hn hv
    rw [getPackageJsonForPath_eq, h1]
    simp only [h2]
    rw [if_pos ⟨hn, hv⟩]
  · intro info h
    obtain ⟨-, -, m, hm, -, -, hnb⟩ := getPackageJsonForPath_sound fs p info h
    exact ⟨m, hm, hnb⟩

/-- Sample filesystem for C7: `pkgC` publishes a placeholder manifest (no
`name`, no `version`) in its `dist` directory, with the real manifest one
level up; `bad` holds an unparseable manifest. -/
def fsC : FileSystem := fun dir =>
  if dir = ["", "node_modules", "pkgC", "dist"] then
    ManifestReadResult.parsed ⟨none, none⟩
  else if dir = ["", "node_modules", "pkgC"] then
    ManifestReadResult.parsed ⟨some "pkgC", some "3.0.0"⟩
  else if dir = ["", "node_modules", "bad"] then
    ManifestReadResult.unparseable
  else ManifestReadResult.absent

/-- Witness for C7: the placeholder `dist` manifest is skipped (search
retried one directory above) and the real `pkgC` manifest is returned; an
unparseable manifest yields silent not-found. -/
theorem claim_C7_witness :
    getPackageJsonForPath fsC ["", "node_modules", "pkgC", "dist", "x.js"] =
      getPackageJsonForPath fsC
        (["", "node_modules", "pkgC", "dist"] : List String).dropLast ∧
    getPackageJsonForPath fsC ["", "node_modules", "pkgC", "dist", "x.js"] =
      some ⟨some "pkgC", some "3.0.0", ["", "node_modules", "pkgC"]⟩ ∧
    getPackageJsonForPath fsC ["", "node_modules", "bad", "y.js"] = none := by
  obtain ⟨-, -, -, h4, -⟩ := claim_C7_resolver_error_handling fsC
    ["", "node_modules", "pkgC", "dist", "x.js"]
  obtain ⟨-, hb, -, -, -⟩ := claim_C7_resolver_error_handling fsC
    ["", "node_modules", "bad", "y.js"]
  exact ⟨h4 ["", "node_modules", "pkgC", "dist"] ⟨none, none⟩ rfl rfl rfl rfl,
    rfl, hb ["", "node_modules", "bad"] rfl rfl⟩

/-- A package name has a duplicate error iff its collected distinct-version
list has more than one element and is not excused by a configured
exception. -/
theorem analyzer_error_name_iff (fs : FileSystem) (ids : List (List String))
    (cfg : DuplicatePackagesConfig) (nm : Option String) :
    (∃ e ∈ (analyzeForDuplicates fs ids cfg).duplicatePackageErrors,
      e.packageName = nm) ↔
    ∃ vs, jsMapGet (buildPackagesMap fs ids) nm = some vs ∧ 1 < vs.length ∧
      (∀ mx, lookupException cfg (templateShow nm) = some mx →
        mx < vs.length) := by
  have hk := (buildPackagesMap_spec fs ids).1
  rw [analyzeForDuplicates_eq]
  constructor
  · rintro ⟨e, he, hname⟩
    simp only [List.mem_flatMap] at he
    obtain ⟨entry, hentry, hm⟩ := he
    obtain ⟨n0, vs0⟩ := entry
    rw [emitError_mem_iff] at hm
    obtain ⟨rfl, hlen, hall⟩ := hm
    have hname2 : n0 = nm := hname
    subst hname2
    have hget : jsMapGet (buildPackagesMap fs ids) n0 = some vs0 :=
      (mem_iff_jsMapGet_of_keysNodup _ hk n0 vs0).mp hentry
    exact ⟨vs0, hget, hlen, hall⟩
  · rintro ⟨vs, hvs, hlen, hall⟩
    refine ⟨⟨nm, vs, lookupException cfg (templateShow nm)⟩, ?_, rfl⟩
    simp only [List.mem_flatMap]
    refine ⟨(nm, vs), (mem_iff_jsMapGet_of_keysNodup _ hk nm vs).mpr hvs, ?_⟩
    rw [emitError_mem_iff]
    exact ⟨rfl, hlen, hall⟩

/-- Every emitted duplicate error carries exactly the version list grouped
under its package name and the configured exception lookup for that name. -/
theorem analyzer_error_shape (fs : FileSystem) (ids : List (List String))
    (cfg : DuplicatePackagesConfig) (e : DuplicatePackageError)
    (he : e ∈ (analyzeForDuplicates fs ids cfg).duplicatePackageErrors) :
    jsMapGet (buildPackagesMap fs ids) e.packageName = some e.versions ∧
    e.maxAllowedVersionCount =
      lookupException cfg (templateShow e.packageName) := by
  have hk := (buildPackagesMap_spec fs ids).1
  rw [analyzeForDuplicates_eq] at he
  simp only [List.mem_flatMap] at he
  obtain ⟨entry, hentry, hm⟩ := he
  obtain ⟨n0, vs0⟩ := entry
  rw [emitError_mem_iff] at hm
  obtain ⟨rfl, -, -⟩ := hm
  exact ⟨(mem_iff_jsMapGet_of_keysNodup _ hk n0 vs0).mp hentry, rfl⟩

/-- C9: the analyzer is pure and deterministic in its inputs, and permuting
the iteration order of the module identities does not change the contents of
the output — the `unusedExceptions` list is identical, the same package
names have duplicate errors, and corresponding errors carry the same
configured maximum and the same distinct-version set (equal up to
permutation, hence of equal count); only the order of the error sequence
may follow the input's first-seen order. -/
theorem claim_C9_analyzer_permutation_invariant (fs : FileSystem)
    (ids ids' : List (List String)) (cfg : DuplicatePackagesConfig)
    (hex : (exceptionKeys cfg).Nodup)
    (hperm : List.Perm ids' ids) :
    (analyzeForDuplicates fs ids' cfg).unusedExceptions =
      (analyzeForDuplicates fs ids cfg).unusedExceptions ∧
    (∀ nm, (∃ e ∈ (analyzeForDuplicates fs ids' cfg).duplicatePackageErrors,
        e.packageName = nm) ↔
      (∃ e ∈ (analyzeForDuplicates fs ids cfg).duplicatePackageErrors,
        e.packageName = nm)) ∧
    (∀ e' e, e' ∈ (analyzeForDuplicates fs ids' cfg).duplicatePackageErrors →
      e ∈ (analyzeForDuplicates fs ids cfg).duplicatePackageErrors →
      e'.packageName = e.packageName →
      e'.maxAllowedVersionCount = e.maxAllowedVersionCount ∧
      List.Perm e'.versions e.versions ∧
      e'.versions.length = e.versions.length) := by
  obtain ⟨k1', v1', n1', m1'⟩ := buildPackagesMap_spec fs ids'
  obtain ⟨k1, v1, n1, m1⟩ := buildPackagesMap_spec fs ids
  have hnone : ∀ n, jsMapGet (buildPackagesMap fs ids') n = none ↔
      jsMapGet (buildPackagesMap fs ids) n = none := by
    intro n
    rw [n1' n, n1 n]
    constructor
    · intro h id hid
      exact h id (hperm.mem_iff.mpr hid)
    · intro h id hid
      exact h id (hperm.mem_iff.mp hid)
  have hmemv : ∀ n v, memVersions (buildPackagesMap fs ids') n v ↔
      memVersions (buildPackagesMap fs ids) n v := by
    intro n v
    rw [m1' n v, m1 n v]
    constructor
    · rintro ⟨id, hid, h⟩
      exact ⟨id, hperm.mem_iff.mp hid, h⟩
    · rintro ⟨id, hid, h⟩
      exact ⟨id, hperm.mem_iff.mpr hid, h⟩
  have hvs : ∀ n vs' vs, jsMapGet (buildPackagesMap fs ids') n = some vs' →
      jsMapGet (buildPackagesMap fs ids) n = some vs →
      List.Perm vs' vs := by
    intro n vs' vs h' h
    have hnd' : vs'.Nodup := v1' _ (jsMapGet_some_mem _ _ _ h')
    have hnd : vs.Nodup := v1 _ (jsMapGet_some_mem _ _ _ h)
    refine (List.perm_ext_iff_of_nodup hnd' hnd).mpr ?_
    intro v
    have e1 : v ∈ vs' ↔ memVersions (buildPackagesMap fs ids') n v := by
      constructor
      · intro hv
        exact ⟨vs', h', hv⟩
      · rintro ⟨vs0, h0, hv⟩
        rw [h'] at h0
        injection h0 with hh
        subst hh
        exact hv
    have e2 : v ∈ vs ↔ memVersions (buildPackagesMap fs ids) n v := by
      constructor
      · intro hv
        exact ⟨vs, h, hv⟩
      · rintro ⟨vs0, h0, hv⟩
        rw [h] at h0
        injection h0 with hh
        subst hh
        exact hv
    rw [e1, e2, hmemv]
  have hsome : ∀ n vs', jsMapGet (buildPackagesMap fs ids') n = some vs' →
      ∃ vs, jsMapGet (buildPackagesMap fs ids) n = some vs ∧
        List.Perm vs' vs := by
    intro n vs' h'
    cases h : jsMapGet (buildPackagesMap fs ids) n with
    | none =>
        rw [(hnone n).mpr h] at h'
        cases h'
    | some vs => exact ⟨vs, rfl, hvs n vs' vs h' h⟩
  refine ⟨?_, ?_, ?_⟩
  · rw [analyzeForDuplicates_eq, analyzeForDuplicates_eq]
    simp only []
    rw [deleteFold_eq_filter _ _ hex, deleteFold_eq_filter _ _ hex]
    apply List.filter_congr
    intro s hs
    rw [decide_eq_decide]
    have key' : (∀ e ∈ buildPackagesMap fs ids', e.1 ≠ some s) ↔
        jsMapGet (buildPackagesMap fs ids') (some s) = none := by
      rw [jsMapGet_none_iff_keys]
      simp [List.mem_map]
      constructor
      · intro h x hx
        exact h (some s) x hx rfl
      · intro h a b hab ha
        rw [ha] at hab
        exact h b hab
    have key : (∀ e ∈ buildPackagesMap fs ids, e.1 ≠ some s) ↔
        jsMapGet (buildPackagesMap fs ids) (some s) = none := by
      rw [jsMapGet_none_iff_keys]
      simp [List.mem_map]
      constructor
      · intro h x hx
        exact h (some s) x hx rfl
      · intro h a b hab ha
        rw [ha] at hab
        exact h b hab
    rw [key', key, hnone]
  · intro nm
    rw [analyzer_error_name_iff, analyzer_error_name_iff]
    constructor
    · rintro ⟨vs', h', hlen, hall⟩
      obtain ⟨vs, h, hp⟩ := hsome nm vs' h'
      have hleq := hp.length_eq
      refine ⟨vs, h, by omega, fun mx hmx => ?_⟩
      have := hall mx hmx
      omega
    · rintro ⟨vs, h, hlen, hall⟩
      cases h' : jsMapGet (buildPackagesMap fs ids') nm with
      | none =>
          rw [(hnone nm).mp h'] at h
          cases h
      | some vs' =>
          have hp := hvs nm vs' vs h' h
          have hleq := hp.length_eq
          refine ⟨vs', rfl, by omega, fun mx hmx => ?_⟩
          have := hall mx hmx
          omega
  · intro e' e he' he hn
    obtain ⟨hg', hmx'⟩ := analyzer_error_shape fs ids' cfg e' he'
    obtain ⟨hg, hmx⟩ := analyzer_error_shape fs ids cfg e he
    rw [hn] at hg' hmx'
    have hp := hvs e.packageName e'.versions e.versions hg' hg
    exact ⟨hmx'.trans hmx.symm, hp, hp.length_eq⟩

/-- The two `pkgX` module ids in the opposite iteration order. -/
def idsXrev : List (List String) :=
  [["", "node_modules", "pkgX", "index.js"],
   ["", "a", "node_modules", "pkgX", "index.js"]]

/-- Witness for C9: permuting the two `pkgX` module ids leaves the unused
exceptions identical and the error's version set equal up to permutation. -/
theorem claim_C9_witness :
    (analyzeForDuplicates fsX idsXrev cfgXZ).unusedExceptions =
      (analyzeForDuplicates fsX idsX cfgXZ).unusedExceptions ∧
    List.Perm
      (⟨some "pkgX", [some "2.0.0", some "1.0.0"], some 1⟩ :
        DuplicatePackageError).versions
      (⟨some "pkgX", [some "1.0.0", some "2.0.0"], some 1⟩ :
        DuplicatePackageError).versions := by
  obtain ⟨h1, -, h3⟩ := claim_C9_analyzer_permutation_invariant fsX idsX
    idsXrev cfgXZ (by decide) (by decide)
  refine ⟨h1, ?_⟩
  exact (h3 ⟨some "pkgX", [some "2.0.0", some "1.0.0"], some 1⟩
    ⟨some "pkgX", [some "1.0.0", some "2.0.0"], some 1⟩
    (by decide) (by decide) rfl).2.1
